import Mathlib

/-!
Verification model of the rdir daemon's hard core, shallowly embedded from the
Rust sources:

* src/server/state/mod.rs — the membership state machine (State and its
  mutating operations, the try-drop peer lifecycle, the shutdown predicate);
* src/common/shares.rs — share-name parsing and formatting;
* src/server/net.rs — the length-prefixed framing of the Noise transport.

Modelling conventions:

* Rust BTreeMap containers are modelled as association lists with unique keys
  (the Wf predicate records key uniqueness); BTreeSet containers are modelled
  as duplicate-free lists.  BTreeMap iterates in ascending key order while the
  model iterates in insertion order; no claim below depends on iteration order.
* Rust strings are modelled as their UTF-8 byte lists (List Nat), matching the
  byte-oriented length checks (str::len) and ASCII delimiters of the source.
* Machine integers are Nat with explicit wrap-around where the source wraps
  (the u32 peer-id counter uses wrapping_add).
* Channel senders (smol::channel::Sender, async_broadcast::Sender) are handles
  to channels owned outside State.  A sender is modelled by its identity tag
  and whether the receiving end is still alive (isOpen); messages successfully
  handed to a channel are recorded as events in the operation's result.
* A Rust panic (unwrap / assert! on a falsified condition) or divergence is
  the dedicated result OpResult.panicked, which carries no state: Rust peers
  observe neither a result state nor events from a panicking call.
-/

namespace Rdir

/-! ## Association-list maps and duplicate-free list sets -/

/-- Lookup in an association list (first matching key), modelling
BTreeMap::get. -/
def alookup {K V : Type} [DecidableEq K] : List (K × V) → K → Option V
  | [], _ => none
  | e :: t, k => if e.1 = k then some e.2 else alookup t k

/-- Insert-or-replace in an association list, modelling BTreeMap::insert. -/
def ainsert {K V : Type} [DecidableEq K] : List (K × V) → K → V → List (K × V)
  | [], k, v => [(k, v)]
  | e :: t, k, v => if e.1 = k then (k, v) :: t else e :: ainsert t k v

/-- Remove a key from an association list, modelling BTreeMap::remove. -/
def aerase {K V : Type} [DecidableEq K] : List (K × V) → K → List (K × V)
  | [], _ => []
  | e :: t, k => if e.1 = k then aerase t k else e :: aerase t k

/-- The keys of an association list. -/
def keys {K V : Type} (l : List (K × V)) : List K := l.map Prod.fst

/-- Insert into a list set, modelling BTreeSet::insert. -/
def sinsert {K : Type} [DecidableEq K] (l : List K) (k : K) : List K :=
  if k ∈ l then l else l ++ [k]

/-- Remove from a list set, modelling BTreeSet::remove. -/
def sremove {K : Type} [DecidableEq K] : List K → K → List K
  | [], _ => []
  | e :: t, k => if e = k then sremove t k else e :: sremove t k

/-! ## Data model (src/server/state/mod.rs, src/common/shares.rs) -/

/-- A peer socket address: IPv4 plus port.  State operations use it only as a
key with decidable equality. -/
structure SocketAddrV4 where
  ip : Nat
  port : Nat
deriving DecidableEq, Repr

/-- The byte string of a common share name (the String inside the
CommonShareName newtype). -/
abbrev CommonShareName := List Nat

/-- An IPv4 address as its four octets (src/common/shares.rs uses
std::net::Ipv4Addr). -/
structure Ipv4Addr where
  a : Nat
  b : Nat
  c : Nat
  d : Nat
deriving DecidableEq, Repr

/-- RemotePeerAddr: an IPv4 address with an optional port; parsing normalises
the default protocol port to none. -/
structure RemotePeerAddr where
  addr : Ipv4Addr
  port : Option Nat
deriving DecidableEq, Repr

/-- FullShareName: a remote peer address plus a common share name. -/
structure FullShareName where
  addr : RemotePeerAddr
  name : CommonShareName
deriving DecidableEq, Repr

/-- A peer id (the u32 inside the PeerId newtype). -/
abbrev PeerId := Nat

/-- A channel sender handle: its identity tag and whether the receiving end is
still alive.  Openness is fixed during a synchronous State call because the
receiver lives on another task. -/
structure Sender where
  isOpen : Bool
  tag : Nat
deriving DecidableEq, Repr

/-- StateNotification (src/server/state/mod.rs). -/
inductive StateNotification where
  | kickedFromShare (name : CommonShareName)
deriving DecidableEq, Repr

/-- Peer (src/server/state/mod.rs): address, the two membership edge sets and
the two outgoing channels. -/
structure Peer where
  address : SocketAddrV4
  used_remote_shares : List FullShareName
  used_shares : List CommonShareName
  shutdown_tx : Sender
  notification_tx : Sender
deriving DecidableEq, Repr

/-- Peer::new: a peer with empty membership sets.  Outside the state module
this is the only way to construct a Peer (the set fields are private). -/
def Peer.new (address : SocketAddrV4) (shutdown_tx notification_tx : Sender) : Peer :=
  { address := address, used_remote_shares := [], used_shares := [],
    shutdown_tx := shutdown_tx, notification_tx := notification_tx }

/-- Share (src/server/state/mod.rs): name, filesystem path (opaque bytes) and
participant set. -/
structure Share where
  name : CommonShareName
  path : List Nat
  participants : List PeerId
deriving DecidableEq, Repr

/-- Share::new: a share with no participants. -/
def Share.new (name : CommonShareName) (path : List Nat) : Share :=
  { name := name, path := path, participants := [] }

/-- RemoteShare (src/server/state/mod.rs). -/
structure RemoteShare where
  owner : PeerId
  name : CommonShareName
  mount_path : List Nat
deriving DecidableEq, Repr

/-- State (src/server/state/mod.rs lines 16-23). -/
structure State where
  next_peer_id : Nat
  peers : List (PeerId × Peer)
  peers_by_socket : List (SocketAddrV4 × PeerId)
  shares : List (CommonShareName × Share)
  remote_shares : List (FullShareName × RemoteShare)
deriving DecidableEq, Repr

/-- State::default(). -/
def State.default : State :=
  { next_peer_id := 0, peers := [], peers_by_socket := [], shares := [],
    remote_shares := [] }

/-- An observable side effect of a State operation: a message accepted by a
peer's shutdown channel, a message accepted by a peer's notification channel,
or an attempted broadcast on the server-shutdown token (whose failure the
source discards). -/
inductive Event where
  | shutdownSent (chan : Nat)
  | notificationSent (chan : Nat) (note : StateNotification)
  | serverShutdownBroadcast
deriving DecidableEq, Repr

/-- Result of a State operation: success or a typed error (each carrying the
resulting state and emitted events), or a panic / divergence, which Rust
callers cannot observe past. -/
inductive OpResult (ε α : Type) where
  | ok (val : α) (s : State) (events : List Event)
  | err (e : ε) (s : State) (events : List Event)
  | panicked
deriving DecidableEq, Repr

/-- The resulting state of a non-panicking operation. -/
def OpResult.stateOf? {ε α : Type} : OpResult ε α → Option State
  | .ok _ s _ => some s
  | .err _ s _ => some s
  | .panicked => none

/-- The events emitted by an operation (none observable on panic). -/
def OpResult.events {ε α : Type} : OpResult ε α → List Event
  | .ok _ _ evs => evs
  | .err _ _ evs => evs
  | .panicked => []

/-! ## Error types (src/server/state/mod.rs lines 312-372) -/

/-- ShareDoesntExistError. -/
inductive ShareDoesntExistError where
  | shareDoesntExist
deriving DecidableEq, Repr

/-- RepeatedShare. -/
inductive RepeatedShare where
  | repeatedShare
deriving DecidableEq, Repr

/-- RepeatedRemoteShareError. -/
inductive RepeatedRemoteShareError where
  | repeatedRemoteShare
deriving DecidableEq, Repr

/-- NewPeerConnectedToShareError. -/
inductive NewPeerConnectedToShareError where
  | repeatedPeer
  | shareDoesntExist
deriving DecidableEq, Repr

/-- PeerConnectedToShareError.  The peerDoesntExist variant is declared in the
source (wrapping PeerDoesntExistError) but, as proved below, never produced. -/
inductive PeerConnectedToShareError where
  | peerDoesntExist
  | shareDoesntExist
deriving DecidableEq, Repr

/-- PeerDisconnectedFromShareError. -/
inductive PeerDisconnectedFromShareError where
  | peerNotUsingShare
  | shareDoesntExist
deriving DecidableEq, Repr

/-- KickPeerFromShareError. -/
inductive KickPeerFromShareError where
  | peerNotUsingShare
  | shareDoesntExist
deriving DecidableEq, Repr

/-- ExitPeerShareError. -/
inductive ExitPeerShareError where
  | noSuchRemoteShare
deriving DecidableEq, Repr

/-! ## State operations (src/server/state/mod.rs lines 41-310) -/

/-- The new_peer_id! macro loop: take the current counter value, advance the
counter with u32 wrap-around, and retry while the candidate id is taken.  The
fuel covers the whole u32 range; exhausting it corresponds to the source
looping forever, reported as OpResult.panicked by the callers. -/
def newPeerIdGo (peers : List (PeerId × Peer)) : Nat → Nat → Option (PeerId × Nat)
  | 0, _ => none
  | fuel + 1, next =>
    let next' := (next + 1) % 4294967296
    if (alookup peers next).isSome then newPeerIdGo peers fuel next'
    else some (next, next')

/-- Run the new_peer_id! macro against a state. -/
def newPeerId (s : State) : Option (PeerId × Nat) :=
  newPeerIdGo s.peers 4294967296 s.next_peer_id

/-- The events of try_send on a peer shutdown channel: the send failure is
discarded (let _ = ... in the source), so a closed channel merely records
nothing. -/
def shutdownTrySendEvents (tx : Sender) : List Event :=
  if tx.isOpen then [.shutdownSent tx.tag] else []

/-- State::try_drop_peer: removes the peer from the peers map (and only from
the peers map) when both membership sets are empty, then signals its shutdown
channel, ignoring send failure.  Returns none for the unreachable! panic on a
missing peer. -/
def tryDropPeer (s : State) (peer_id : PeerId) : Option (State × List Event × Bool) :=
  match alookup s.peers peer_id with
  | none => none
  | some peer =>
    if peer.used_shares.length + peer.used_remote_shares.length = 0 then
      some ({ s with peers := aerase s.peers peer_id },
            shutdownTrySendEvents peer.shutdown_tx, true)
    else
      some (s, [], false)

/-- State::should_server_close: if both peers and shares are empty, attempt a
broadcast on the server-shutdown token (failure discarded). -/
def serverCloseEvents (s : State) : List Event :=
  if s.peers.isEmpty && s.shares.isEmpty then [.serverShutdownBroadcast] else []

/-- State::new_peer_connected_to_share. -/
def newPeerConnectedToShare (s : State) (peer : Peer) (share_name : CommonShareName) :
    OpResult NewPeerConnectedToShareError PeerId :=
  if (alookup s.peers_by_socket peer.address).isSome then
    .err .repeatedPeer s []
  else
    match alookup s.shares share_name with
    | none => .err .shareDoesntExist s []
    | some share =>
      match newPeerId s with
      | none => .panicked
      | some (peer_id, next') =>
        let peer' := { peer with used_shares := sinsert peer.used_shares share_name }
        .ok peer_id
          { s with
            next_peer_id := next',
            peers_by_socket := ainsert s.peers_by_socket peer.address peer_id,
            peers := ainsert s.peers peer_id peer',
            shares := ainsert s.shares share_name
              { share with participants := sinsert share.participants peer_id } }
          []

/-- State::peer_connected_to_share.  The share is looked up first; only then is
the peer fetched with unwrap, which panics when the peer is absent. -/
def peerConnectedToShare (s : State) (peer_id : PeerId) (share_name : CommonShareName) :
    OpResult PeerConnectedToShareError Unit :=
  match alookup s.shares share_name with
  | none => .err .shareDoesntExist s []
  | some share =>
    match alookup s.peers peer_id with
    | none => .panicked
    | some peer =>
      .ok ()
        { s with
          peers := ainsert s.peers peer_id
            { peer with used_shares := sinsert peer.used_shares share_name },
          shares := ainsert s.shares share_name
            { share with participants := sinsert share.participants peer_id } }
        []

/-- State::peer_disconnected_from_share.  The peer is fetched with unwrap
first (panic when absent); a missing share or a missing edge is a typed error
before any mutation; otherwise both edge halves are removed and try-drop
runs. -/
def peerDisconnectedFromShare (s : State) (peer_id : PeerId) (share_name : CommonShareName) :
    OpResult PeerDisconnectedFromShareError Unit :=
  match alookup s.peers peer_id with
  | none => .panicked
  | some peer =>
    match alookup s.shares share_name with
    | none => .err .shareDoesntExist s []
    | some share =>
      if peer_id ∈ share.participants then
        let s1 : State :=
          { s with
            shares := ainsert s.shares share_name
              { share with participants := sremove share.participants peer_id },
            peers := ainsert s.peers peer_id
              { peer with used_shares := sremove peer.used_shares share_name } }
        match tryDropPeer s1 peer_id with
        | none => .panicked
        | some (s2, evs, _) => .ok () s2 evs
      else .err .peerNotUsingShare s []

/-- State::kick_peer_from_share: like disconnect but it also pushes
KickedFromShare into the peer's notification channel with try_send(..).unwrap(),
which panics when the channel's receiving end is gone. -/
def kickPeerFromShare (s : State) (peer_id : PeerId) (share_name : CommonShareName) :
    OpResult KickPeerFromShareError Unit :=
  match alookup s.peers peer_id with
  | none => .panicked
  | some peer =>
    match alookup s.shares share_name with
    | none => .err .shareDoesntExist s []
    | some share =>
      if peer_id ∈ share.participants then
        if peer.notification_tx.isOpen then
          let s1 : State :=
            { s with
              shares := ainsert s.shares share_name
                { share with participants := sremove share.participants peer_id },
              peers := ainsert s.peers peer_id
                { peer with used_shares := sremove peer.used_shares share_name } }
          match tryDropPeer s1 peer_id with
          | none => .panicked
          | some (s2, evs, _) =>
            .ok () s2
              (Event.notificationSent peer.notification_tx.tag
                (.kickedFromShare share_name) :: evs)
        else .panicked
      else .err .peerNotUsingShare s []

/-- State::add_share. -/
def addShare (s : State) (share : Share) : OpResult RepeatedShare Unit :=
  match alookup s.shares share.name with
  | some _ => .err .repeatedShare s []
  | none => .ok () { s with shares := ainsert s.shares share.name share } []

/-- The participant loop of State::remove_share: for each participant, fetch
the peer with unwrap (panic when absent), remove the edge half asserting it was
present (assert!, active in release), push KickedFromShare with
try_send(..).unwrap() (panic when the channel is closed), then try-drop. -/
def removeShareLoop (name : CommonShareName) :
    List PeerId → State → List Event → Option (State × List Event)
  | [], s, evs => some (s, evs)
  | pid :: rest, s, evs =>
    match alookup s.peers pid with
    | none => none
    | some peer =>
      if name ∈ peer.used_shares then
        if peer.notification_tx.isOpen then
          let s1 : State :=
            { s with
              peers := ainsert s.peers pid
                { peer with used_shares := sremove peer.used_shares name } }
          match tryDropPeer s1 pid with
          | none => none
          | some (s2, evs2, _) =>
            removeShareLoop name rest s2
              (evs ++ Event.notificationSent peer.notification_tx.tag
                (.kickedFromShare name) :: evs2)
        else none
      else none

/-- State::remove_share: remove the share entry, kick every participant, then
evaluate the shutdown predicate. -/
def removeShare (s : State) (name : CommonShareName) :
    OpResult ShareDoesntExistError Unit :=
  match alookup s.shares name with
  | none => .err .shareDoesntExist s []
  | some share =>
    let s0 : State := { s with shares := aerase s.shares name }
    match removeShareLoop name share.participants s0 [] with
    | none => .panicked
    | some (s1, evs) => .ok () s1 (evs ++ serverCloseEvents s1)

/-- State::join_remote_share_new: register a brand-new peer owning one remote
share.  The peers_by_socket insert overwrites any existing binding of the
supplied address. -/
def joinRemoteShareNew (s : State) (peer : Peer) (name : FullShareName)
    (mount_path : List Nat) : OpResult RepeatedRemoteShareError PeerId :=
  match alookup s.remote_shares name with
  | some _ => .err .repeatedRemoteShare s []
  | none =>
    match newPeerId s with
    | none => .panicked
    | some (peer_id, next') =>
      let remote_share : RemoteShare :=
        { owner := peer_id, name := name.name, mount_path := mount_path }
      let peer' := { peer with used_remote_shares := sinsert peer.used_remote_shares name }
      .ok peer_id
        { s with
          next_peer_id := next',
          remote_shares := ainsert s.remote_shares name remote_share,
          peers_by_socket := ainsert s.peers_by_socket peer.address peer_id,
          peers := ainsert s.peers peer_id peer' }
        []

/-- State::join_remote_share: add a further remote-share edge to an existing
peer; the peer is fetched with unwrap after the vacancy check (panic when
absent). -/
def joinRemoteShare (s : State) (peer_id : PeerId) (name : FullShareName)
    (mount_path : List Nat) : OpResult RepeatedRemoteShareError Unit :=
  match alookup s.remote_shares name with
  | some _ => .err .repeatedRemoteShare s []
  | none =>
    match alookup s.peers peer_id with
    | none => .panicked
    | some peer =>
      let remote_share : RemoteShare :=
        { owner := peer_id, name := name.name, mount_path := mount_path }
      .ok ()
        { s with
          remote_shares := ainsert s.remote_shares name remote_share,
          peers := ainsert s.peers peer_id
            { peer with used_remote_shares := sinsert peer.used_remote_shares name } }
        []

/-- State::exit_remote_share: the peer is fetched with unwrap (panic when
absent); a missing edge is a typed error before any mutation; otherwise the
edge is removed, the remote-share entry is removed with unwrap (panic when
absent), try-drop runs and the shutdown predicate is evaluated. -/
def exitRemoteShare (s : State) (peer_id : PeerId) (name : FullShareName) :
    OpResult ExitPeerShareError Unit :=
  match alookup s.peers peer_id with
  | none => .panicked
  | some peer =>
    if name ∈ peer.used_remote_shares then
      let s1 : State :=
        { s with
          peers := ainsert s.peers peer_id
            { peer with used_remote_shares := sremove peer.used_remote_shares name } }
      match alookup s1.remote_shares name with
      | none => .panicked
      | some _ =>
        let s2 : State := { s1 with remote_shares := aerase s1.remote_shares name }
        match tryDropPeer s2 peer_id with
        | none => .panicked
        | some (s3, evs, _) => .ok () s3 (evs ++ serverCloseEvents s3)
    else .err .noSuchRemoteShare s []

/-! ## The membership invariants of section 3 of the specification -/

/-- The option holds a value satisfying P. -/
def OptionHolds {α : Type} (o : Option α) (P : α → Prop) : Prop :=
  ∃ x, o = some x ∧ P x

instance {α : Type} (o : Option α) (P : α → Prop) [DecidablePred P] :
    Decidable (OptionHolds o P) :=
  match o with
  | some x =>
    if h : P x then .isTrue ⟨x, rfl, h⟩
    else .isFalse (by rintro ⟨y, hy, hp⟩; cases hy; exact h hp)
  | none => .isFalse (by rintro ⟨y, hy, _⟩; cases hy)

/-- The share named n exists and lists pid among its participants. -/
def mirrorsShare (s : State) (pid : PeerId) (n : CommonShareName) : Prop :=
  OptionHolds (alookup s.shares n) fun sh => pid ∈ sh.participants

/-- The peer pid exists and records the share named n in used_shares. -/
def usesShare (s : State) (pid : PeerId) (n : CommonShareName) : Prop :=
  OptionHolds (alookup s.peers pid) fun p => n ∈ p.used_shares

/-- The remote share named fn exists and is owned by pid. -/
def ownsRemote (s : State) (pid : PeerId) (fn : FullShareName) : Prop :=
  OptionHolds (alookup s.remote_shares fn) fun rs => rs.owner = pid

/-- The peer pid exists and records the full name fn in used_remote_shares. -/
def usesRemote (s : State) (pid : PeerId) (fn : FullShareName) : Prop :=
  OptionHolds (alookup s.peers pid) fun p => fn ∈ p.used_remote_shares

/-- Invariant I1: the peer-to-share edges of used_shares and the share
participant sets mirror each other. -/
def I1 (s : State) : Prop :=
  (∀ e ∈ s.peers, ∀ n ∈ e.2.used_shares, mirrorsShare s e.1 n) ∧
  (∀ e ∈ s.shares, ∀ pid ∈ e.2.participants, usesShare s pid e.1)

/-- Invariant I2: the used_remote_shares edges and the remote-share owner
fields mirror each other. -/
def I2 (s : State) : Prop :=
  (∀ e ∈ s.peers, ∀ fn ∈ e.2.used_remote_shares, ownsRemote s e.1 fn) ∧
  (∀ e ∈ s.remote_shares, usesRemote s e.2.owner e.1)

/-- Invariant I3: the reverse index maps every live peer's address to its id,
and no two live peers share an address. -/
def I3 (s : State) : Prop :=
  (∀ e ∈ s.peers, alookup s.peers_by_socket e.2.address = some e.1) ∧
  (∀ e ∈ s.peers, ∀ e' ∈ s.peers, e.2.address = e'.2.address → e.1 = e'.1)

/-- Structural well-formedness inherited from BTreeMap / BTreeSet: unique map
keys and duplicate-free edge and participant sets. -/
def Wf (s : State) : Prop :=
  (keys s.peers).Nodup ∧ (keys s.peers_by_socket).Nodup ∧
  (keys s.shares).Nodup ∧ (keys s.remote_shares).Nodup ∧
  (∀ e ∈ s.peers, e.2.used_shares.Nodup ∧ e.2.used_remote_shares.Nodup) ∧
  (∀ e ∈ s.shares, e.2.participants.Nodup)

instance (s : State) (pid : PeerId) (n : CommonShareName) :
    Decidable (mirrorsShare s pid n) := by
  unfold mirrorsShare
  infer_instance

instance (s : State) (pid : PeerId) (n : CommonShareName) :
    Decidable (usesShare s pid n) := by
  unfold usesShare
  infer_instance

instance (s : State) (pid : PeerId) (fn : FullShareName) :
    Decidable (ownsRemote s pid fn) := by
  unfold ownsRemote
  infer_instance

instance (s : State) (pid : PeerId) (fn : FullShareName) :
    Decidable (usesRemote s pid fn) := by
  unfold usesRemote
  infer_instance

instance (s : State) : Decidable (I1 s) := by
  unfold I1
  infer_instance

instance (s : State) : Decidable (I2 s) := by
  unfold I2
  infer_instance

instance (s : State) : Decidable (I3 s) := by
  unfold I3
  infer_instance

instance (s : State) : Decidable (Wf s) := by
  unfold Wf
  infer_instance

/-! ## Share-name parsing and formatting (src/common/shares.rs)

Strings are byte lists.  The delimiters of the grammar are the ASCII bytes
47 (slash), 58 (colon), 46 (dot), 43 (plus); decimal digits are 48-57.
UTF-8 multi-byte sequences never contain ASCII bytes, so byte-level splitting
agrees with the source's char-level split_once. -/

/-- NETWORK_PORT (src/server/mod.rs): the u16 read big-endian from the bytes
of "rd", 0x7264 = 29284. -/
def NETWORK_PORT : Nat := 29284

/-- MAX_SHARE_NAME_LENGTH (src/common/shares.rs). -/
def MAX_SHARE_NAME_LENGTH : Nat := 60

/-- str::split_once on a one-byte delimiter: split at the first occurrence. -/
def splitOnce (c : Nat) : List Nat → Option (List Nat × List Nat)
  | [] => none
  | b :: t =>
    if b = c then some ([], t)
    else
      match splitOnce c t with
      | some (x, y) => some (b :: x, y)
      | none => none

/-- Split on every occurrence of a one-byte delimiter (the components the
std IPv4 parser reads between dots). -/
def splitOn (c : Nat) : List Nat → List (List Nat)
  | [] => [[]]
  | b :: t =>
    if b = c then [] :: splitOn c t
    else
      match splitOn c t with
      | h :: r => (b :: h) :: r
      | [] => [[b]]

/-- Accumulate decimal digits; any non-digit byte rejects. -/
def readDecimalAux : List Nat → Nat → Option Nat
  | [], acc => some acc
  | b :: t, acc =>
    if 48 ≤ b ∧ b ≤ 57 then readDecimalAux t (acc * 10 + (b - 48)) else none

/-- Parse a non-empty all-digit byte string as a decimal number. -/
def readDecimal : List Nat → Option Nat
  | [] => none
  | l => readDecimalAux l 0

/-- Whether a byte string starts with the digit 0 followed by more bytes (the
leading-zero shape std's IPv4 parser rejects). -/
def leadingZero : List Nat → Bool
  | 48 :: _ :: _ => true
  | _ => false

/-- One dotted-quad group as std's IPv4 parser accepts it: non-empty digits,
no leading zero (a group starting with the digit 0 must be exactly "0") and
value at most 255.  The source's at-most-3-digits cursor rule is equivalent:
a longer digit string either has a leading zero or a value above 255. -/
def parseOctet (l : List Nat) : Option Nat :=
  match readDecimal l with
  | some v => if leadingZero l then none else if v ≤ 255 then some v else none
  | none => none

/-- Combine four parsed octet groups into an address. -/
def quadOctets (s1 s2 s3 s4 : List Nat) : Option Ipv4Addr :=
  match parseOctet s1, parseOctet s2, parseOctet s3, parseOctet s4 with
  | some a, some b, some c, some d => some ⟨a, b, c, d⟩
  | _, _, _, _ => none

/-- std::net::Ipv4Addr::from_str: exactly four octet groups separated by
dots. -/
def parseIpv4 (l : List Nat) : Option Ipv4Addr :=
  match splitOn 46 l with
  | [s1, s2, s3, s4] => quadOctets s1 s2 s3 s4
  | _ => none

/-- Drop one leading plus sign (byte 43), as the std integer parser does. -/
def stripPlus : List Nat → List Nat
  | b :: t => if b = 43 then t else b :: t
  | [] => []

/-- u16::from_str: an optional leading plus sign, then non-empty digits, with
the value capped by the u16 range (the source's overflow rejection). -/
def parseU16 (l : List Nat) : Option Nat :=
  match readDecimal (stripPlus l) with
  | some v => if v ≤ 65535 then some v else none
  | none => none

instance {ε α : Type} [DecidableEq ε] [DecidableEq α] : DecidableEq (Except ε α) := fun a b =>
  match a, b with
  | .ok x, .ok y =>
    if h : x = y then .isTrue (by rw [h])
    else .isFalse (by intro hc; cases hc; exact h rfl)
  | .error x, .error y =>
    if h : x = y then .isTrue (by rw [h])
    else .isFalse (by intro hc; cases hc; exact h rfl)
  | .ok _, .error _ => .isFalse (by intro hc; cases hc)
  | .error _, .ok _ => .isFalse (by intro hc; cases hc)

/-- RemotePeerAddrParseError (src/common/shares.rs). -/
inductive RemotePeerAddrParseError where
  | invalidAddress
  | portNumber (raw : List Nat)
deriving DecidableEq, Repr

/-- CommonShareNameParseError (src/common/shares.rs). -/
inductive CommonShareNameParseError where
  | nameTooLong
deriving DecidableEq, Repr

/-- FullShareNameParseError (src/common/shares.rs). -/
inductive FullShareNameParseError where
  | invalidAddress (e : RemotePeerAddrParseError)
  | invalidCommonShareName (e : CommonShareNameParseError)
  | noSeparator
deriving DecidableEq, Repr

/-- ShareNameParseError (src/common/shares.rs). -/
inductive ShareNameParseError where
  | failedToParseAsAny (e : FullShareNameParseError)
deriving DecidableEq, Repr

/-- ShareName (src/common/shares.rs): common or full. -/
inductive ShareName where
  | common (c : CommonShareName)
  | full (f : FullShareName)
deriving DecidableEq, Repr

/-- Whether a parsed share name is the Common variant. -/
def ShareName.isCommon : ShareName → Bool
  | .common _ => true
  | .full _ => false

/-- RemotePeerAddr::from_str: an optional ":PORT" suffix split at the first
colon; the default protocol port is normalised to none. -/
def parseRemotePeerAddr (l : List Nat) :
    Except RemotePeerAddrParseError RemotePeerAddr :=
  match splitOnce 58 l with
  | some (a, p) =>
    match parseIpv4 a with
    | none => .error .invalidAddress
    | some addr =>
      match parseU16 p with
      | none => .error (.portNumber p)
      | some port => .ok ⟨addr, if port = NETWORK_PORT then none else some port⟩
  | none =>
    match parseIpv4 l with
    | none => .error .invalidAddress
    | some addr => .ok ⟨addr, none⟩

/-- CommonShareName::from_str: only the length cap is checked. -/
def parseCommonShareName (l : List Nat) :
    Except CommonShareNameParseError CommonShareName :=
  if MAX_SHARE_NAME_LENGTH < l.length then .error .nameTooLong else .ok l

/-- FullShareName::from_str: split at the first slash, parse the address,
then the common name. -/
def parseFullShareName (l : List Nat) :
    Except FullShareNameParseError FullShareName :=
  match splitOnce 47 l with
  | none => .error .noSeparator
  | some (raw_addr, raw_name) =>
    match parseRemotePeerAddr raw_addr with
    | .error e => .error (.invalidAddress e)
    | .ok addr =>
      match parseCommonShareName raw_name with
      | .error e => .error (.invalidCommonShareName e)
      | .ok name => .ok ⟨addr, name⟩

/-- ShareName::from_str: try the full form first, fall back to the common
form, and report the full form's error when both fail. -/
def parseShareName (l : List Nat) : Except ShareNameParseError ShareName :=
  match parseFullShareName l with
  | .ok f => .ok (.full f)
  | .error fe =>
    match parseCommonShareName l with
    | .ok c => .ok (.common c)
    | .error _ => .error (.failedToParseAsAny fe)

/-- Fuel-driven digit expansion; any fuel above the value itself yields the
decimal digits, most significant first. -/
def natToDigitBytesAux : Nat → Nat → List Nat
  | 0, _ => []
  | fuel + 1, n =>
    if n < 10 then [n + 48] else natToDigitBytesAux fuel (n / 10) ++ [n % 10 + 48]

/-- Decimal digit bytes of a number, most significant first (Display for the
u8 octets and u16 port). -/
def natToDigitBytes (n : Nat) : List Nat := natToDigitBytesAux (n + 1) n

/-- Display for Ipv4Addr: dotted quad (nested to the right so each dot starts
the remainder of the string). -/
def fmtIpv4 (a : Ipv4Addr) : List Nat :=
  natToDigitBytes a.a ++
    46 :: (natToDigitBytes a.b ++
      46 :: (natToDigitBytes a.c ++ 46 :: natToDigitBytes a.d))

/-- Display for RemotePeerAddr: the address, then ":PORT" only when a
non-default port is recorded. -/
def fmtRemotePeerAddr (r : RemotePeerAddr) : List Nat :=
  fmtIpv4 r.addr ++ (match r.port with | some p => 58 :: natToDigitBytes p | none => [])

/-- Display for FullShareName: address, slash, name. -/
def fmtFullShareName (f : FullShareName) : List Nat :=
  fmtRemotePeerAddr f.addr ++ 47 :: f.name

/-- Display for ShareName. -/
def fmtShareName : ShareName → List Nat
  | .common c => c
  | .full f => fmtFullShareName f

/-- The value range of Ipv4Addr octets (u8 fields in the source). -/
def Ipv4Addr.wf (a : Ipv4Addr) : Prop :=
  a.a ≤ 255 ∧ a.b ≤ 255 ∧ a.c ≤ 255 ∧ a.d ≤ 255

/-- The invariant RemotePeerAddr values carry in the source: u8 octets, a u16
port, and the parser's normalisation that the recorded port is never the
default one. -/
def RemotePeerAddr.wf (r : RemotePeerAddr) : Prop :=
  r.addr.wf ∧ ∀ p, r.port = some p → p ≤ 65535 ∧ p ≠ NETWORK_PORT

/-- The invariant FullShareName values carry: a well-formed address and a name
within the length cap. -/
def FullShareName.wf (f : FullShareName) : Prop :=
  f.addr.wf ∧ f.name.length ≤ MAX_SHARE_NAME_LENGTH

/-! ## Length-prefixed framing of the Noise transport (src/server/net.rs) -/

/-- MAX_MESSAGE_LEN: the on-wire frame cap, u16::MAX. -/
def MAX_MESSAGE_LEN : Nat := 65535

/-- TAG_LEN: the AEAD tag length. -/
def TAG_LEN : Nat := 16

/-- u16::to_be_bytes of a length cast to u16. -/
def u16ToBeBytes (n : Nat) : List Nat := [n / 256 % 256, n % 256]

/-- u16::from_be_bytes. -/
def u16FromBeBytes (a b : Nat) : Nat := a * 256 + b

/-- u16::to_le_bytes of a length cast to u16. -/
def u16ToLeBytes (n : Nat) : List Nat := [n % 256, n / 256 % 256]

/-- u16::from_le_bytes. -/
def u16FromLeBytes (a b : Nat) : Nat := a + b * 256

/-- A handshake message as NoiseStream::handshake puts it on the wire: a
big-endian length prefix (to_be_bytes) followed by the message bytes. -/
def handshakeWriteFrame (message : List Nat) : List Nat :=
  u16ToBeBytes message.length ++ message

/-- The handshake read path: read_exact on a 2-byte prefix decoded with
u16::from_be_bytes, then read_exact of that many message bytes; too few bytes
is an UnexpectedEof error. -/
def handshakeReadFrame (input : List Nat) : Option (List Nat × List Nat) :=
  match input with
  | b0 :: b1 :: rest =>
    if u16FromBeBytes b0 b1 ≤ rest.length then
      some (rest.take (u16FromBeBytes b0 b1), rest.drop (u16FromBeBytes b0 b1))
    else none
  | _ => none

/-- One transport-mode frame as poll_write builds it: the payload is capped at
MAX_MESSAGE_LEN - TAG_LEN bytes, encrypted by the Noise transport state
(writeMessage, supplied by the external snow crate), and prefixed with the
ciphertext length encoded by u16::to_le_bytes.  The second component is the
payload length reported as written. -/
def transportWriteFrame (writeMessage : List Nat → List Nat) (buf : List Nat) :
    List Nat × Nat :=
  let payload := buf.take (MAX_MESSAGE_LEN - TAG_LEN)
  let msg := writeMessage payload
  (u16ToLeBytes msg.length ++ msg, payload.length)

/-- The transport-mode read path (ReadingLen then ReadingMessage): a 2-byte
prefix decoded with u16::from_le_bytes, then that many ciphertext bytes, which
are handed to the Noise transport state. -/
def transportReadFrame (input : List Nat) : Option (List Nat × List Nat) :=
  match input with
  | b0 :: b1 :: rest =>
    if u16FromLeBytes b0 b1 ≤ rest.length then
      some (rest.take (u16FromLeBytes b0 b1), rest.drop (u16FromLeBytes b0 b1))
    else none
  | _ => none

/-- A stand-in for the external AEAD in concrete framing examples: ciphertext
is the payload followed by a 16-byte tag, matching the snow crate's
payload-plus-TAG_LEN ciphertext length. -/
def tagStub (p : List Nat) : List Nat := p ++ List.replicate TAG_LEN 0

/-- The transport frame produced by writing 242 payload bytes through tagStub:
258 bytes of ciphertext behind the 2-byte length field. -/
def frame258 : List Nat := (transportWriteFrame tagStub (List.replicate 242 7)).1

/-! ## Concrete fixtures (mirroring the unit-test setup in
src/server/state/mod.rs: unit channels and small literal states) -/

/-- An open shutdown channel handle. -/
def txShutdown : Sender := ⟨true, 0⟩

/-- An open notification channel handle. -/
def txNotify : Sender := ⟨true, 1⟩

/-- A notification channel handle whose receiving end is gone. -/
def txNotifyClosed : Sender := ⟨false, 1⟩

/-- The address 1.1.1.1:29284 used by the source's test peer constructor. -/
def addr1 : SocketAddrV4 := ⟨16843009, 29284⟩

/-- A second address, 2.2.2.2:29284. -/
def addr2 : SocketAddrV4 := ⟨33686018, 29284⟩

/-- The common share name "A". -/
def nameA : CommonShareName := [65]

/-- The common share name "B". -/
def nameB : CommonShareName := [66]

/-- The full share name 9.9.9.9/R. -/
def nameR : FullShareName := ⟨⟨⟨9, 9, 9, 9⟩, none⟩, [82]⟩

/-- A fresh peer at addr1 with live channels. -/
def peer1 : Peer := Peer.new addr1 txShutdown txNotify

/-- A fresh peer at addr1 whose notification receiver is gone. -/
def peer1c : Peer := Peer.new addr1 txShutdown txNotifyClosed

/-- A fresh peer at addr2 with live channels (tags 2 and 3). -/
def peer2 : Peer := Peer.new addr2 ⟨true, 2⟩ ⟨true, 3⟩

/-- The share "A" at path "/". -/
def shareA : Share := Share.new nameA [47]

/-- The share "B" at path "/". -/
def shareB : Share := Share.new nameB [47]

/-- A state holding only the share "A": the result of add_share on the default
state. -/
def sA : State := { State.default with shares := [(nameA, shareA)] }

/-- A state holding the shares "A" and "B". -/
def sAB : State := { State.default with shares := [(nameA, shareA), (nameB, shareB)] }

/-- The state after new_peer_connected_to_share(peer1, "A") on sA: peer id 0
holds the single edge to "A". -/
def sP : State :=
  { next_peer_id := 1,
    peers := [(0, { peer1 with used_shares := [nameA] })],
    peers_by_socket := [(addr1, 0)],
    shares := [(nameA, { shareA with participants := [0] })],
    remote_shares := [] }

/-- The same state but with peer1c (closed notification channel). -/
def sPc : State :=
  { sP with peers := [(0, { peer1c with used_shares := [nameA] })] }

/-- A further fresh peer handle that reuses the socket address of peer1. -/
def peer1b : Peer := Peer.new addr1 ⟨true, 4⟩ ⟨true, 5⟩

/-- The state produced by join_remote_share_new(peer1b, nameR, "/") on sP:
peer id 1 is registered, the remote share is recorded, and the socket binding
for addr1 is overwritten to 1 even though peer 0 is still live at addr1. -/
def sPjoined : State :=
  { next_peer_id := 2,
    peers := [(0, { peer1 with used_shares := [nameA] }),
              (1, { peer1b with used_remote_shares := [nameR] })],
    peers_by_socket := [(addr1, 1)],
    shares := [(nameA, { shareA with participants := [0] })],
    remote_shares := [(nameR, { owner := 1, name := [82], mount_path := [47] })] }

/-- The state produced by join_remote_share_new(peer2, nameR, "/") on sP:
peer id 1 is registered at the fresh address addr2. -/
def sPjoined2 : State :=
  { next_peer_id := 2,
    peers := [(0, { peer1 with used_shares := [nameA] }),
              (1, { peer2 with used_remote_shares := [nameR] })],
    peers_by_socket := [(addr1, 0), (addr2, 1)],
    shares := [(nameA, { shareA with participants := [0] })],
    remote_shares := [(nameR, { owner := 1, name := [82], mount_path := [47] })] }

/-- The state left by peer_disconnected_from_share(0, "A") on sP: the peer is
gone from the peers map but its socket binding survives. -/
def sPdropped : State :=
  { next_peer_id := 1,
    peers := [],
    peers_by_socket := [(addr1, 0)],
    shares := [(nameA, shareA)],
    remote_shares := [] }

/-! ## Lemmas about the container model -/

theorem alookup_ainsert_self {K V : Type} [DecidableEq K] (l : List (K × V)) (k : K) (v : V) :
    alookup (ainsert l k v) k = some v := by
  induction l with
  | nil => simp [ainsert, alookup]
  | cons e t ih =>
    by_cases h : e.1 = k
    · simp [ainsert, alookup, h]
    · simp [ainsert, alookup, h, ih]

theorem alookup_ainsert_ne {K V : Type} [DecidableEq K] {k' k : K} (l : List (K × V)) (v : V)
    (h : k' ≠ k) : alookup (ainsert l k v) k' = alookup l k' := by
  induction l with
  | nil => simp [ainsert, alookup, Ne.symm h]
  | cons e t ih =>
    by_cases he : e.1 = k
    · simp [ainsert, alookup, he, Ne.symm h]
    · simp only [ainsert, if_neg he]
      by_cases he' : e.1 = k'
      · simp [alookup, he']
      · simp [alookup, he', ih]

theorem alookup_aerase_self {K V : Type} [DecidableEq K] (l : List (K × V)) (k : K) :
    alookup (aerase l k) k = none := by
  induction l with
  | nil => simp [aerase, alookup]
  | cons e t ih =>
    by_cases h : e.1 = k
    · simp [aerase, h, ih]
    · simp [aerase, alookup, h, ih]

theorem alookup_aerase_ne {K V : Type} [DecidableEq K] {k' k : K} (l : List (K × V))
    (h : k' ≠ k) : alookup (aerase l k) k' = alookup l k' := by
  induction l with
  | nil => simp [aerase]
  | cons e t ih =>
    by_cases he : e.1 = k
    · have h' : ¬ e.1 = k' := by rw [he]; exact Ne.symm h
      simp [aerase, alookup, he, h', ih, Ne.symm h]
    · by_cases he' : e.1 = k'
      · simp [aerase, alookup, he, he', h]
      · simp [aerase, alookup, he, he', ih]

theorem alookup_mem {K V : Type} [DecidableEq K] {l : List (K × V)} {k : K} {v : V}
    (h : alookup l k = some v) : (k, v) ∈ l := by
  induction l with
  | nil => simp [alookup] at h
  | cons e t ih =>
    by_cases he : e.1 = k
    · simp only [alookup, if_pos he] at h
      cases h
      have he2 : (k, e.2) = e := by
        obtain ⟨a, b⟩ := e
        cases he
        rfl
      rw [he2]
      exact List.mem_cons_self _ _
    · simp only [alookup, if_neg he] at h
      exact List.mem_cons_of_mem _ (ih h)

theorem mem_keys_of_alookup {K V : Type} [DecidableEq K] {l : List (K × V)} {k : K} {v : V}
    (h : alookup l k = some v) : k ∈ keys l := by
  have := alookup_mem h
  exact List.mem_map.2 ⟨(k, v), this, rfl⟩

theorem alookup_eq_some_of_mem {K V : Type} [DecidableEq K] {l : List (K × V)} {k : K} {v : V}
    (hnd : (keys l).Nodup) (hm : (k, v) ∈ l) : alookup l k = some v := by
  induction l with
  | nil => cases hm
  | cons e t ih =>
    rcases List.mem_cons.1 hm with h | h
    · cases h
      simp [alookup]
    · have hk : k ∈ keys t := List.mem_map.2 ⟨(k, v), h, rfl⟩
      have hne : e.1 ≠ k := by
        intro hc
        have : e.1 ∉ keys t := (List.nodup_cons.1 hnd).1
        exact this (hc ▸ hk)
      simp only [alookup, if_neg hne]
      exact ih (List.nodup_cons.1 hnd).2 h

theorem alookup_eq_none_of_not_mem_keys {K V : Type} [DecidableEq K] {l : List (K × V)} {k : K}
    (h : k ∉ keys l) : alookup l k = none := by
  induction l with
  | nil => rfl
  | cons e t ih =>
    have h1 : e.1 ≠ k := fun hc => h (by simp [keys, hc])
    have h2 : k ∉ keys t := fun hc => h (by simp [keys] at hc ⊢; right; exact hc)
    simp [alookup, h1, ih h2]

theorem mem_keys_of_alookup_isSome {K V : Type} [DecidableEq K] {l : List (K × V)} {k : K}
    (h : (alookup l k).isSome) : k ∈ keys l := by
  rcases Option.isSome_iff_exists.1 h with ⟨v, hv⟩
  exact mem_keys_of_alookup hv

theorem self_mem_ainsert {K V : Type} [DecidableEq K] (l : List (K × V)) (k : K) (v : V) :
    (k, v) ∈ ainsert l k v := alookup_mem (alookup_ainsert_self l k v)

theorem mem_ainsert_of_mem_ne {K V : Type} [DecidableEq K] {l : List (K × V)} {e : K × V}
    {k : K} (v : V) (hm : e ∈ l) (h : e.1 ≠ k) : e ∈ ainsert l k v := by
  induction l with
  | nil => cases hm
  | cons e' t ih =>
    by_cases he : e'.1 = k
    · simp only [ainsert, if_pos he]
      rcases List.mem_cons.1 hm with h1 | h1
      · exact absurd (h1 ▸ he) h
      · exact List.mem_cons_of_mem _ h1
    · simp only [ainsert, if_neg he]
      rcases List.mem_cons.1 hm with h1 | h1
      · exact h1 ▸ List.mem_cons_self _ _
      · exact List.mem_cons_of_mem _ (ih h1)

theorem mem_ainsert_iff {K V : Type} [DecidableEq K] {l : List (K × V)} {e : K × V} {k : K}
    {v : V} (hnd : (keys l).Nodup) : e ∈ ainsert l k v ↔ e = (k, v) ∨ (e ∈ l ∧ e.1 ≠ k) := by
  constructor
  · intro hm
    induction l with
    | nil =>
      simp only [ainsert] at hm
      exact Or.inl (List.mem_singleton.1 hm)
    | cons e' t ih =>
      by_cases he' : e'.1 = k
      · simp only [ainsert, if_pos he'] at hm
        rcases List.mem_cons.1 hm with h1 | h1
        · exact Or.inl h1
        · have hek : e.1 ≠ k := by
            intro hc
            have hmk : e.1 ∈ keys t := List.mem_map.2 ⟨e, h1, rfl⟩
            exact (List.nodup_cons.1 hnd).1 (he' ▸ hc ▸ hmk)
          exact Or.inr ⟨List.mem_cons_of_mem _ h1, hek⟩
      · simp only [ainsert, if_neg he'] at hm
        rcases List.mem_cons.1 hm with h1 | h1
        · exact Or.inr ⟨h1 ▸ List.mem_cons_self _ _, h1 ▸ he'⟩
        · rcases ih (List.nodup_cons.1 hnd).2 h1 with h2 | ⟨h2, h3⟩
          · exact Or.inl h2
          · exact Or.inr ⟨List.mem_cons_of_mem _ h2, h3⟩
  · rintro (h | ⟨hm, hne⟩)
    · exact h ▸ self_mem_ainsert l k v
    · exact mem_ainsert_of_mem_ne v hm hne

theorem mem_aerase_iff {K V : Type} [DecidableEq K] {l : List (K × V)} {e : K × V} {k : K} :
    e ∈ aerase l k ↔ e ∈ l ∧ e.1 ≠ k := by
  induction l with
  | nil => simp [aerase]
  | cons e' t ih =>
    by_cases he' : e'.1 = k
    · simp only [aerase, if_pos he', ih]
      constructor
      · rintro ⟨h1, h2⟩
        exact ⟨List.mem_cons_of_mem _ h1, h2⟩
      · rintro ⟨h1, h2⟩
        rcases List.mem_cons.1 h1 with h3 | h3
        · exact absurd (h3 ▸ he') h2
        · exact ⟨h3, h2⟩
    · simp only [aerase, if_neg he', List.mem_cons, ih]
      constructor
      · rintro (h1 | ⟨h1, h2⟩)
        · exact ⟨Or.inl h1, h1 ▸ he'⟩
        · exact ⟨Or.inr h1, h2⟩
      · rintro ⟨h1 | h1, h2⟩
        · exact Or.inl h1
        · exact Or.inr ⟨h1, h2⟩

theorem keys_nodup_ainsert {K V : Type} [DecidableEq K] {l : List (K × V)} (k : K) (v : V)
    (hnd : (keys l).Nodup) : (keys (ainsert l k v)).Nodup := by
  induction l with
  | nil => simp [ainsert, keys]
  | cons e t ih =>
    rcases List.nodup_cons.1 hnd with ⟨h1, h2⟩
    by_cases he : e.1 = k
    · simp only [ainsert, if_pos he, keys, List.map_cons]
      exact List.nodup_cons.2 ⟨he ▸ h1, h2⟩
    · simp only [ainsert, if_neg he, keys, List.map_cons]
      refine List.nodup_cons.2 ⟨?_, ih h2⟩
      intro hc
      rcases List.mem_map.1 hc with ⟨e2, hm2, hk2⟩
      rcases (mem_ainsert_iff h2).1 hm2 with h3 | ⟨h3, _⟩
      · exact he (by rw [← hk2, h3])
      · exact h1 (hk2 ▸ List.mem_map.2 ⟨e2, h3, rfl⟩)

theorem keys_nodup_aerase {K V : Type} [DecidableEq K] {l : List (K × V)} (k : K)
    (hnd : (keys l).Nodup) : (keys (aerase l k)).Nodup := by
  induction l with
  | nil => simp [aerase, keys]
  | cons e t ih =>
    rcases List.nodup_cons.1 hnd with ⟨h1, h2⟩
    by_cases he : e.1 = k
    · simpa [aerase, he] using ih h2
    · simp only [aerase, if_neg he, keys, List.map_cons]
      refine List.nodup_cons.2 ⟨?_, ih h2⟩
      intro hc
      rcases List.mem_map.1 hc with ⟨e2, hm2, hk2⟩
      exact h1 (hk2 ▸ List.mem_map.2 ⟨e2, (mem_aerase_iff.1 hm2).1, rfl⟩)

theorem mem_sinsert_iff {K : Type} [DecidableEq K] {l : List K} {x y : K} :
    x ∈ sinsert l y ↔ x = y ∨ x ∈ l := by
  unfold sinsert
  by_cases h : y ∈ l
  · simp only [if_pos h]
    constructor
    · exact Or.inr
    · rintro (h1 | h1)
      · exact h1 ▸ h
      · exact h1
  · simp only [if_neg h, List.mem_append, List.mem_singleton]
    tauto

theorem nodup_sinsert {K : Type} [DecidableEq K] {l : List K} (y : K) (h : l.Nodup) :
    (sinsert l y).Nodup := by
  unfold sinsert
  by_cases hm : y ∈ l
  · simpa [hm] using h
  · simp only [if_neg hm]
    exact List.Nodup.append h (List.nodup_singleton y) (by simpa using hm)

theorem mem_sremove_iff {K : Type} [DecidableEq K] {l : List K} {x y : K} :
    x ∈ sremove l y ↔ x ∈ l ∧ x ≠ y := by
  induction l with
  | nil => simp [sremove]
  | cons e t ih =>
    by_cases he : e = y
    · simp only [sremove, if_pos he, ih, List.mem_cons]
      constructor
      · rintro ⟨h1, h2⟩
        exact ⟨Or.inr h1, h2⟩
      · rintro ⟨h1 | h1, h2⟩
        · exact absurd (h1 ▸ he) h2
        · exact ⟨h1, h2⟩
    · simp only [sremove, if_neg he, List.mem_cons, ih]
      constructor
      · rintro (h1 | ⟨h1, h2⟩)
        · exact ⟨Or.inl h1, h1 ▸ he⟩
        · exact ⟨Or.inr h1, h2⟩
      · rintro ⟨h1 | h1, h2⟩
        · exact Or.inl h1
        · exact Or.inr ⟨h1, h2⟩

theorem nodup_sremove {K : Type} [DecidableEq K] {l : List K} (y : K) (h : l.Nodup) :
    (sremove l y).Nodup := by
  induction l with
  | nil => simp [sremove]
  | cons e t ih =>
    rcases List.nodup_cons.1 h with ⟨h1, h2⟩
    by_cases he : e = y
    · simpa [sremove, he] using ih h2
    · simp only [sremove, if_neg he]
      exact List.nodup_cons.2 ⟨fun hc => h1 (mem_sremove_iff.1 hc).1, ih h2⟩

theorem newPeerIdGo_spec {peers : List (PeerId × Peer)} :
    ∀ {fuel next id nx}, newPeerIdGo peers fuel next = some (id, nx) →
      alookup peers id = none := by
  intro fuel
  induction fuel with
  | zero => intro next id nx h; cases h
  | succ n ih =>
    intro next id nx h
    simp only [newPeerIdGo] at h
    by_cases hc : (alookup peers next).isSome
    · exact ih (by simpa [hc] using h)
    · rw [if_neg hc] at h
      cases h
      exact Option.not_isSome_iff_eq_none.1 hc

theorem newPeerId_spec {s : State} {id nx : Nat} (h : newPeerId s = some (id, nx)) :
    alookup s.peers id = none :=
  newPeerIdGo_spec h

theorem optionHolds_some {α : Type} {x : α} {P : α → Prop} :
    OptionHolds (some x) P ↔ P x := by
  constructor
  · rintro ⟨y, hy, hp⟩
    cases hy
    exact hp
  · intro h
    exact ⟨x, rfl, h⟩

theorem optionHolds_none {α : Type} {P : α → Prop} : ¬ OptionHolds (none : Option α) P := by
  rintro ⟨y, hy, _⟩
  cases hy

/-! ## Claim C4: try-drop and the two indices -/

/-- C4: try-drop removes a fully disconnected peer from the peers map and
signals its shutdown channel, but it leaves the peers_by_socket binding in
place: after new_peer_connected_to_share(peer1, "A") followed by
peer_disconnected_from_share(0, "A"), the peer is gone from peers while
peers_by_socket still maps its address to the dead id 0, contradicting the
claim that the peer is removed from both indices. -/
theorem c4_try_drop_leaves_socket_binding :
    newPeerConnectedToShare sA peer1 nameA = .ok 0 sP [] ∧
    peerDisconnectedFromShare sP 0 nameA = .ok () sPdropped [.shutdownSent 0] ∧
    alookup sPdropped.peers 0 = none ∧
    alookup sPdropped.peers_by_socket addr1 = some 0 := by decide

/-! ## Claim C5: notification delivery failure -/

/-- C5: the source sends the KickedFromShare notification with
try_send(..).unwrap(), so when the peer's notification receiver is gone both
kick_peer_from_share and remove_share panic instead of completing the edge
removal and returning Ok.  The state sPc is reached by
new_peer_connected_to_share with a peer whose notification channel is already
closed. -/
theorem c5_notification_unwrap_panics :
    newPeerConnectedToShare sA peer1c nameA = .ok 0 sPc [] ∧
    kickPeerFromShare sPc 0 nameA = .panicked ∧
    removeShare sPc nameA = .panicked := by decide

/-! ## Claim C9: common share name length -/

/-- C9 counterexample: CommonShareName::from_str accepts the empty string,
refuting the claim that parsing the empty string fails. -/
theorem c9_empty_name_accepted : parseCommonShareName [] = .ok [] := rfl

/-- C9 amended: parsing accepts exactly the byte strings of length at most 60
(including the empty string) and rejects longer ones with NameTooLong. -/
theorem c9_length_cap (l : List Nat) :
    (l.length ≤ MAX_SHARE_NAME_LENGTH → parseCommonShareName l = .ok l) ∧
    (MAX_SHARE_NAME_LENGTH < l.length → parseCommonShareName l = .error .nameTooLong) := by
  unfold parseCommonShareName
  constructor
  · intro h
    rw [if_neg (by omega)]
  · intro h
    rw [if_pos h]

/-- Witness for c9_length_cap at a 1-byte and a 61-byte name. -/
theorem c9_length_cap_witness :
    parseCommonShareName [65] = .ok [65] ∧
    parseCommonShareName (List.replicate 61 65) = .error .nameTooLong :=
  ⟨(c9_length_cap [65]).1 (by decide),
   (c9_length_cap (List.replicate 61 65)).2 (by decide)⟩

/-! ## Claim C10: missing-peer behaviour -/

/-- C10 counterexample: peer_connected_to_share looks the share up before the
peer, so calling it with a missing peer id and a missing share returns the
typed ShareDoesntExist error instead of panicking. -/
theorem c10_missing_share_before_peer :
    peerConnectedToShare State.default 5 nameB =
      .err .shareDoesntExist State.default [] := by decide

theorem tryDropPeer_eq {s : State} {pid : PeerId} {p : Peer}
    (h : alookup s.peers pid = some p) :
    tryDropPeer s pid =
      if p.used_shares.length + p.used_remote_shares.length = 0 then
        some ({ s with peers := aerase s.peers pid },
              shutdownTrySendEvents p.shutdown_tx, true)
      else some (s, [], false) := by
  unfold tryDropPeer
  rw [h]

theorem tryDropPeer_ne_none {s : State} {pid : PeerId} {p : Peer}
    (h : alookup s.peers pid = some p) : tryDropPeer s pid ≠ none := by
  rw [tryDropPeer_eq h]
  split <;> simp

/-- C10 amended: with a missing peer id, peer_disconnected_from_share,
kick_peer_from_share and exit_remote_share always panic on the peers-map
unwrap, and peer_connected_to_share panics whenever the named share exists
(with a missing share it returns ShareDoesntExist before reaching the peer
lookup); the declared PeerDoesntExist error variant is never produced; and
when the peer does exist the missing-entry unwraps are unreachable (for
kick_peer_from_share granted a live notification channel, and for
exit_remote_share granted its used_remote_shares edges have matching
remote-share entries, which invariant I2 supplies). -/
theorem c10_missing_peer_panics :
    (∀ (s : State) (pid : PeerId) (n : CommonShareName) (sh : Share),
      alookup s.peers pid = none → alookup s.shares n = some sh →
      peerConnectedToShare s pid n = .panicked) ∧
    (∀ (s : State) (pid : PeerId) (n : CommonShareName),
      alookup s.shares n = none →
      peerConnectedToShare s pid n = .err .shareDoesntExist s []) ∧
    (∀ (s : State) (pid : PeerId) (n : CommonShareName),
      alookup s.peers pid = none → peerDisconnectedFromShare s pid n = .panicked) ∧
    (∀ (s : State) (pid : PeerId) (n : CommonShareName),
      alookup s.peers pid = none → kickPeerFromShare s pid n = .panicked) ∧
    (∀ (s : State) (pid : PeerId) (fn : FullShareName),
      alookup s.peers pid = none → exitRemoteShare s pid fn = .panicked) ∧
    (∀ (s : State) (pid : PeerId) (n : CommonShareName) (s' : State) (evs : List Event),
      peerConnectedToShare s pid n ≠ .err .peerDoesntExist s' evs) ∧
    (∀ (s : State) (pid : PeerId) (n : CommonShareName) (p : Peer),
      alookup s.peers pid = some p → peerConnectedToShare s pid n ≠ .panicked) ∧
    (∀ (s : State) (pid : PeerId) (n : CommonShareName) (p : Peer),
      alookup s.peers pid = some p → peerDisconnectedFromShare s pid n ≠ .panicked) ∧
    (∀ (s : State) (pid : PeerId) (n : CommonShareName) (p : Peer),
      alookup s.peers pid = some p → p.notification_tx.isOpen = true →
      kickPeerFromShare s pid n ≠ .panicked) ∧
    (∀ (s : State) (pid : PeerId) (fn : FullShareName) (p : Peer),
      alookup s.peers pid = some p →
      (∀ fn' ∈ p.used_remote_shares, (alookup s.remote_shares fn').isSome) →
      exitRemoteShare s pid fn ≠ .panicked) := by
  refine ⟨?_, ?_, ?_, ?_, ?_, ?_, ?_, ?_, ?_, ?_⟩
  · intro s pid n sh h1 h2
    simp [peerConnectedToShare, h1, h2]
  · intro s pid n h
    simp [peerConnectedToShare, h]
  · intro s pid n h
    simp [peerDisconnectedFromShare, h]
  · intro s pid n h
    simp [kickPeerFromShare, h]
  · intro s pid fn h
    simp [exitRemoteShare, h]
  · intro s pid n s' evs hc
    unfold peerConnectedToShare at hc
    split at hc
    · injection hc with h1 h2 h3
      exact PeerConnectedToShareError.noConfusion h1
    · split at hc
      · exact OpResult.noConfusion hc
      · exact OpResult.noConfusion hc
  · intro s pid n p hp hc
    unfold peerConnectedToShare at hc
    split at hc
    · exact OpResult.noConfusion hc
    · split at hc
      · next heq =>
        rw [hp] at heq
        exact Option.noConfusion heq
      · exact OpResult.noConfusion hc
  · intro s pid n p hp hc
    unfold peerDisconnectedFromShare at hc
    split at hc
    · next heq =>
      rw [hp] at heq
      exact Option.noConfusion heq
    · next peer heq =>
      split at hc
      · exact OpResult.noConfusion hc
      · split at hc
        · simp only [] at hc
          split at hc
          · next heq2 =>
            exact tryDropPeer_ne_none (alookup_ainsert_self _ _ _) heq2
          · exact OpResult.noConfusion hc
        · exact OpResult.noConfusion hc
  · intro s pid n p hp hopen hc
    unfold kickPeerFromShare at hc
    split at hc
    · next heq =>
      rw [hp] at heq
      exact Option.noConfusion heq
    · next peer heq =>
      rw [hp] at heq
      injection heq with heq
      subst heq
      split at hc
      · exact OpResult.noConfusion hc
      · split at hc
        · simp only [] at hc
          split at hc
          · next heq2 =>
            exact tryDropPeer_ne_none (alookup_ainsert_self _ _ _) heq2
          · exact OpResult.noConfusion hc
        · exact OpResult.noConfusion hc
  · intro s pid fn p hp hrs hc
    unfold exitRemoteShare at hc
    split at hc
    · next heq =>
      rw [hp] at heq
      exact Option.noConfusion heq
    · next peer heq =>
      rw [hp] at heq
      injection heq with heq
      subst heq
      split at hc
      · next hmem =>
        simp only [] at hc
        split at hc
        · next heq2 =>
          have hs : (alookup s.remote_shares fn).isSome = true := hrs fn hmem
          rw [show alookup s.remote_shares fn = none from heq2] at hs
          exact Bool.noConfusion hs
        · split at hc
          · next heq2 =>
            exact tryDropPeer_ne_none (alookup_ainsert_self _ _ _) heq2
          · exact OpResult.noConfusion hc
      · exact OpResult.noConfusion hc

/-- Witness for c10_missing_peer_panics: on the one-share state sA with the
missing peer id 7 the peers-map unwrap panics, and on the populated state sP
with the live peer 0 the disconnect operation does not panic. -/
theorem c10_missing_peer_panics_witness :
    peerDisconnectedFromShare sA 7 nameA = .panicked ∧
    peerDisconnectedFromShare sP 0 nameA ≠ .panicked :=
  ⟨c10_missing_peer_panics.2.2.1 sA 7 nameA (by decide),
   c10_missing_peer_panics.2.2.2.2.2.2.2.1 sP 0 nameA
     { peer1 with used_shares := [nameA] } (by decide)⟩

/-! ## Claim C3: atomicity on error -/

/-- C3: whenever any of the nine State operations returns a typed error, the
returned state is exactly the input state (peers, peers_by_socket, shares,
remote_shares and the next-id counter included) and no notification,
cancellation or shutdown message was sent. -/
theorem c3_atomic_on_error :
    (∀ (s : State) (peer : Peer) (n : CommonShareName) e s' evs,
      newPeerConnectedToShare s peer n = .err e s' evs → s' = s ∧ evs = []) ∧
    (∀ (s : State) (pid : PeerId) (n : CommonShareName) e s' evs,
      peerConnectedToShare s pid n = .err e s' evs → s' = s ∧ evs = []) ∧
    (∀ (s : State) (pid : PeerId) (n : CommonShareName) e s' evs,
      peerDisconnectedFromShare s pid n = .err e s' evs → s' = s ∧ evs = []) ∧
    (∀ (s : State) (pid : PeerId) (n : CommonShareName) e s' evs,
      kickPeerFromShare s pid n = .err e s' evs → s' = s ∧ evs = []) ∧
    (∀ (s : State) (share : Share) e s' evs,
      addShare s share = .err e s' evs → s' = s ∧ evs = []) ∧
    (∀ (s : State) (n : CommonShareName) e s' evs,
      removeShare s n = .err e s' evs → s' = s ∧ evs = []) ∧
    (∀ (s : State) (peer : Peer) (fn : FullShareName) (mp : List Nat) e s' evs,
      joinRemoteShareNew s peer fn mp = .err e s' evs → s' = s ∧ evs = []) ∧
    (∀ (s : State) (pid : PeerId) (fn : FullShareName) (mp : List Nat) e s' evs,
      joinRemoteShare s pid fn mp = .err e s' evs → s' = s ∧ evs = []) ∧
    (∀ (s : State) (pid : PeerId) (fn : FullShareName) e s' evs,
      exitRemoteShare s pid fn = .err e s' evs → s' = s ∧ evs = []) := by
  refine ⟨?_, ?_, ?_, ?_, ?_, ?_, ?_, ?_, ?_⟩
  · intro s peer n e s' evs h
    unfold newPeerConnectedToShare at h
    split at h
    · injection h with h1 h2 h3
      exact ⟨h2.symm, h3.symm⟩
    · split at h
      · injection h with h1 h2 h3
        exact ⟨h2.symm, h3.symm⟩
      · split at h
        · exact OpResult.noConfusion h
        · exact OpResult.noConfusion h
  · intro s pid n e s' evs h
    unfold peerConnectedToShare at h
    split at h
    · injection h with h1 h2 h3
      exact ⟨h2.symm, h3.symm⟩
    · split at h
      · exact OpResult.noConfusion h
      · exact OpResult.noConfusion h
  · intro s pid n e s' evs h
    unfold peerDisconnectedFromShare at h
    split at h
    · exact OpResult.noConfusion h
    · split at h
      · injection h with h1 h2 h3
        exact ⟨h2.symm, h3.symm⟩
      · split at h
        · simp only [] at h
          split at h
          · exact OpResult.noConfusion h
          · exact OpResult.noConfusion h
        · injection h with h1 h2 h3
          exact ⟨h2.symm, h3.symm⟩
  · intro s pid n e s' evs h
    unfold kickPeerFromShare at h
    split at h
    · exact OpResult.noConfusion h
    · split at h
      · injection h with h1 h2 h3
        exact ⟨h2.symm, h3.symm⟩
      · split at h
        · split at h
          · simp only [] at h
            split at h
            · exact OpResult.noConfusion h
            · exact OpResult.noConfusion h
          · exact OpResult.noConfusion h
        · injection h with h1 h2 h3
          exact ⟨h2.symm, h3.symm⟩
  · intro s share e s' evs h
    unfold addShare at h
    split at h
    · injection h with h1 h2 h3
      exact ⟨h2.symm, h3.symm⟩
    · exact OpResult.noConfusion h
  · intro s n e s' evs h
    unfold removeShare at h
    split at h
    · injection h with h1 h2 h3
      exact ⟨h2.symm, h3.symm⟩
    · simp only [] at h
      split at h
      · exact OpResult.noConfusion h
      · exact OpResult.noConfusion h
  · intro s peer fn mp e s' evs h
    unfold joinRemoteShareNew at h
    split at h
    · injection h with h1 h2 h3
      exact ⟨h2.symm, h3.symm⟩
    · split at h
      · exact OpResult.noConfusion h
      · simp only [] at h
        exact OpResult.noConfusion h
  · intro s pid fn mp e s' evs h
    unfold joinRemoteShare at h
    split at h
    · injection h with h1 h2 h3
      exact ⟨h2.symm, h3.symm⟩
    · split at h
      · exact OpResult.noConfusion h
      · simp only [] at h
        exact OpResult.noConfusion h
  · intro s pid fn e s' evs h
    unfold exitRemoteShare at h
    split at h
    · exact OpResult.noConfusion h
    · split at h
      · simp only [] at h
        split at h
        · exact OpResult.noConfusion h
        · split at h
          · exact OpResult.noConfusion h
          · exact OpResult.noConfusion h
      · injection h with h1 h2 h3
        exact ⟨h2.symm, h3.symm⟩

/-- Witness for c3_atomic_on_error: a duplicate add_share on the concrete
state sA errs with sA itself and no events, and the theorem applies to it. -/
theorem c3_atomic_on_error_witness :
    addShare sA shareA = .err .repeatedShare sA [] ∧
      sA = sA ∧ ([] : List Event) = [] :=
  ⟨by decide, c3_atomic_on_error.2.2.2.2.1 sA shareA .repeatedShare sA [] (by decide)⟩

/-! ## Claim C6: the shutdown predicate -/

theorem mem_serverCloseEvents_iff {s : State} :
    Event.serverShutdownBroadcast ∈ serverCloseEvents s ↔ s.peers = [] ∧ s.shares = [] := by
  unfold serverCloseEvents
  by_cases h1 : s.peers = []
  · by_cases h2 : s.shares = []
    · simp [h1, h2]
    · simp [h1, h2, List.isEmpty_iff]
  · simp [h1, List.isEmpty_iff]

theorem tryDropPeer_no_broadcast {s : State} {pid : PeerId} {s' : State} {evs : List Event}
    {b : Bool} (h : tryDropPeer s pid = some (s', evs, b)) :
    Event.serverShutdownBroadcast ∉ evs := by
  unfold tryDropPeer at h
  split at h
  · exact Option.noConfusion h
  · split at h
    · injection h with h
      injection h with h1 h2
      injection h2 with h2 h3
      rw [← h2]
      unfold shutdownTrySendEvents
      split <;> simp
    · injection h with h
      injection h with h1 h2
      injection h2 with h2 h3
      rw [← h2]
      simp

theorem removeShareLoop_broadcast_iff {name : CommonShareName} :
    ∀ {l : List PeerId} {s : State} {evs0 : List Event} {s1 : State} {evs1 : List Event},
      removeShareLoop name l s evs0 = some (s1, evs1) →
      (Event.serverShutdownBroadcast ∈ evs1 ↔ Event.serverShutdownBroadcast ∈ evs0) := by
  intro l
  induction l with
  | nil =>
    intro s evs0 s1 evs1 h
    unfold removeShareLoop at h
    injection h with h
    injection h with h1 h2
    rw [h2]
  | cons pid rest ih =>
    intro s evs0 s1 evs1 h
    unfold removeShareLoop at h
    split at h
    · exact Option.noConfusion h
    · split at h
      · split at h
        · simp only [] at h
          split at h
          · exact Option.noConfusion h
          · next s2 evs2 b heq =>
            rw [ih h]
            have hnb := tryDropPeer_no_broadcast heq
            simp [hnb]
        · exact Option.noConfusion h
      · exact Option.noConfusion h

/-- C6: remove_share and exit_remote_share attempt the broadcast on the
server-shutdown token exactly when, after the removal and all try-drops, both
the peers map and the shares map are empty. -/
theorem c6_shutdown_iff_empty :
    (∀ (s : State) (n : CommonShareName) (s' : State) (evs : List Event),
      removeShare s n = .ok () s' evs →
      (Event.serverShutdownBroadcast ∈ evs ↔ s'.peers = [] ∧ s'.shares = [])) ∧
    (∀ (s : State) (pid : PeerId) (fn : FullShareName) (s' : State) (evs : List Event),
      exitRemoteShare s pid fn = .ok () s' evs →
      (Event.serverShutdownBroadcast ∈ evs ↔ s'.peers = [] ∧ s'.shares = [])) := by
  constructor
  · intro s n s' evs h
    unfold removeShare at h
    split at h
    · exact OpResult.noConfusion h
    · simp only [] at h
      split at h
      · exact OpResult.noConfusion h
      · next s1 evs1 heq =>
        injection h with h1 h2 h3
        subst h2
        subst h3
        rw [List.mem_append]
        rw [removeShareLoop_broadcast_iff heq]
        simp [mem_serverCloseEvents_iff]
  · intro s pid fn s' evs h
    unfold exitRemoteShare at h
    split at h
    · exact OpResult.noConfusion h
    · split at h
      · simp only [] at h
        split at h
        · exact OpResult.noConfusion h
        · split at h
          · exact OpResult.noConfusion h
          · next s3 evs3 b heq =>
            injection h with h1 h2 h3
            subst h2
            subst h3
            rw [List.mem_append]
            have hnb := tryDropPeer_no_broadcast heq
            simp [hnb, mem_serverCloseEvents_iff]
      · exact OpResult.noConfusion h

/-- Witness for c6_shutdown_iff_empty: removing the only share of sA empties
the state and broadcasts shutdown; removing one of the two shares of sAB does
not. -/
theorem c6_shutdown_iff_empty_witness :
    Event.serverShutdownBroadcast ∈ (removeShare sA nameA).events ∧
    Event.serverShutdownBroadcast ∉ (removeShare sAB nameA).events := by
  have e1 : removeShare sA nameA = .ok () State.default [.serverShutdownBroadcast] := by
    decide
  have e2 : removeShare sAB nameA =
      .ok () { State.default with shares := [(nameB, shareB)] } [] := by
    decide
  constructor
  · have h1 := (c6_shutdown_iff_empty.1 sA nameA State.default
      [.serverShutdownBroadcast] e1).2 ⟨rfl, rfl⟩
    rw [e1]
    exact h1
  · have h2 := (c6_shutdown_iff_empty.1 sAB nameA
      { State.default with shares := [(nameB, shareB)] } [] e2).1
    rw [e2]
    intro hc
    exact absurd ((h2 hc).2) (by decide)

/-! ## Claim C7: the length prefix of the encrypted transport -/

set_option maxRecDepth 8000 in
/-- C7 counterexample: the transport-mode data frame for a 258-byte ciphertext
starts with the little-endian bytes [2, 1], not the big-endian encoding of its
ciphertext length, and the reader's little-endian decode consumes it
correctly. -/
theorem c7_transport_frame_not_big_endian :
    frame258.take 2 = [2, 1] ∧
    frame258.take 2 ≠ u16ToBeBytes (frame258.drop 2).length ∧
    transportReadFrame frame258 = some (frame258.drop 2, []) := by decide

theorem handshakeReadFrame_cons (b0 b1 : Nat) (rest : List Nat) :
    handshakeReadFrame (b0 :: b1 :: rest) =
      if u16FromBeBytes b0 b1 ≤ rest.length then
        some (rest.take (u16FromBeBytes b0 b1), rest.drop (u16FromBeBytes b0 b1))
      else none := rfl

theorem transportReadFrame_cons (b0 b1 : Nat) (rest : List Nat) :
    transportReadFrame (b0 :: b1 :: rest) =
      if u16FromLeBytes b0 b1 ≤ rest.length then
        some (rest.take (u16FromLeBytes b0 b1), rest.drop (u16FromLeBytes b0 b1))
      else none := rfl

/-- C7 amended: every frame carries a 16-bit length prefix followed by exactly
that many ciphertext bytes, but the byte order differs by phase: the two
handshake messages use a big-endian prefix which the handshake reader decodes
as big-endian, while every transport-mode data frame written on the Noise
stream uses a little-endian prefix (to_le_bytes) which the transport reader
decodes as little-endian (from_le_bytes). -/
theorem c7_length_prefix_framing :
    (∀ (msg rest : List Nat), msg.length ≤ MAX_MESSAGE_LEN →
      handshakeReadFrame (handshakeWriteFrame msg ++ rest) = some (msg, rest)) ∧
    (∀ (wm : List Nat → List Nat) (buf : List Nat),
      (transportWriteFrame wm buf).1 =
        u16ToLeBytes (wm (buf.take (MAX_MESSAGE_LEN - TAG_LEN))).length ++
          wm (buf.take (MAX_MESSAGE_LEN - TAG_LEN))) ∧
    (∀ (wm : List Nat → List Nat) (buf rest : List Nat),
      (wm (buf.take (MAX_MESSAGE_LEN - TAG_LEN))).length ≤ MAX_MESSAGE_LEN →
      transportReadFrame ((transportWriteFrame wm buf).1 ++ rest) =
        some (wm (buf.take (MAX_MESSAGE_LEN - TAG_LEN)), rest)) := by
  refine ⟨?_, ?_, ?_⟩
  · intro msg rest hlen
    have hfr : handshakeWriteFrame msg ++ rest =
        msg.length / 256 % 256 :: msg.length % 256 :: (msg ++ rest) := rfl
    rw [hfr, handshakeReadFrame_cons]
    have hdec : u16FromBeBytes (msg.length / 256 % 256) (msg.length % 256) =
        msg.length := by
      unfold u16FromBeBytes MAX_MESSAGE_LEN at *
      omega
    rw [hdec, if_pos (by simp), List.take_left, List.drop_left]
  · intro wm buf
    rfl
  · intro wm buf rest hlen
    have hfr : (transportWriteFrame wm buf).1 ++ rest =
        (wm (buf.take (MAX_MESSAGE_LEN - TAG_LEN))).length % 256 ::
          (wm (buf.take (MAX_MESSAGE_LEN - TAG_LEN))).length / 256 % 256 ::
          (wm (buf.take (MAX_MESSAGE_LEN - TAG_LEN)) ++ rest) := rfl
    rw [hfr, transportReadFrame_cons]
    revert hlen
    generalize wm (buf.take (MAX_MESSAGE_LEN - TAG_LEN)) = w
    intro hlen
    have hdec : u16FromLeBytes (w.length % 256) (w.length / 256 % 256) = w.length := by
      unfold u16FromLeBytes MAX_MESSAGE_LEN at *
      omega
    rw [hdec, if_pos (by simp), List.take_left, List.drop_left]

/-- Witness for c7_length_prefix_framing: a 3-byte handshake message and a
3-byte transport write both round-trip through their frame encodings. -/
theorem c7_length_prefix_framing_witness :
    handshakeReadFrame (handshakeWriteFrame [5, 6, 7] ++ [9]) = some ([5, 6, 7], [9]) ∧
    transportReadFrame ((transportWriteFrame tagStub [1, 2, 3]).1 ++ [9]) =
      some (tagStub [1, 2, 3], [9]) :=
  ⟨c7_length_prefix_framing.1 [5, 6, 7] [9] (by decide),
   c7_length_prefix_framing.2.2 tagStub [1, 2, 3] [9] (by decide)⟩

/-! ## Claim C8: share-name parsing and formatting -/

theorem natToDigitBytesAux_irrel :
    ∀ n f1 f2, n < f1 → n < f2 → natToDigitBytesAux f1 n = natToDigitBytesAux f2 n := by
  intro n
  induction n using Nat.strong_induction_on with
  | _ n ih =>
    intro f1 f2 h1 h2
    match f1, f2 with
    | g1 + 1, g2 + 1 =>
      unfold natToDigitBytesAux
      by_cases hn : n < 10
      · rw [if_pos hn, if_pos hn]
      · rw [if_neg hn, if_neg hn]
        have hlt : n / 10 < n := Nat.div_lt_self (by omega) (by omega)
        rw [ih (n / 10) hlt g1 g2 (by omega) (by omega)]

theorem natToDigitBytes_eq (n : Nat) :
    natToDigitBytes n =
      if n < 10 then [n + 48] else natToDigitBytes (n / 10) ++ [n % 10 + 48] := by
  unfold natToDigitBytes
  conv_lhs => rw [natToDigitBytesAux]
  by_cases hn : n < 10
  · rw [if_pos hn, if_pos hn]
  · rw [if_neg hn, if_neg hn]
    have hlt : n / 10 < n := Nat.div_lt_self (by omega) (by omega)
    rw [natToDigitBytesAux_irrel (n / 10) n (n / 10 + 1) hlt (by omega)]

theorem natToDigitBytes_ne_nil (n : Nat) : natToDigitBytes n ≠ [] := by
  rw [natToDigitBytes_eq]
  split
  · simp
  · simp

theorem natToDigitBytes_digits :
    ∀ n, ∀ b ∈ natToDigitBytes n, 48 ≤ b ∧ b ≤ 57 := by
  intro n
  induction n using Nat.strong_induction_on with
  | _ n ih =>
    intro b hb
    rw [natToDigitBytes_eq] at hb
    by_cases hn : n < 10
    · rw [if_pos hn] at hb
      rcases List.mem_singleton.1 hb with rfl
      omega
    · rw [if_neg hn] at hb
      rcases List.mem_append.1 hb with h1 | h1
      · exact ih (n / 10) (Nat.div_lt_self (by omega) (by omega)) b h1
      · rcases List.mem_singleton.1 h1 with rfl
        have := Nat.mod_lt n (show 0 < 10 by omega)
        omega

theorem readDecimalAux_append (l1 l2 : List Nat) (acc : Nat) :
    readDecimalAux (l1 ++ l2) acc =
      match readDecimalAux l1 acc with
      | some a => readDecimalAux l2 a
      | none => none := by
  induction l1 generalizing acc with
  | nil => rfl
  | cons b t ih =>
    by_cases hb : 48 ≤ b ∧ b ≤ 57
    · simp only [List.cons_append, readDecimalAux, if_pos hb]
      exact ih _
    · simp only [List.cons_append, readDecimalAux, if_neg hb]

theorem readDecimalAux_natToDigitBytes :
    ∀ n acc, readDecimalAux (natToDigitBytes n) acc =
      some (acc * 10 ^ (natToDigitBytes n).length + n) := by
  intro n
  induction n using Nat.strong_induction_on with
  | _ n ih =>
    intro acc
    by_cases hn : n < 10
    · rw [natToDigitBytes_eq, if_pos hn]
      unfold readDecimalAux
      rw [if_pos (by omega)]
      unfold readDecimalAux
      refine congrArg some ?_
      simp only [List.length_singleton, pow_one]
      omega
    · have hlt : n / 10 < n := Nat.div_lt_self (by omega) (by omega)
      rw [natToDigitBytes_eq, if_neg hn]
      rw [readDecimalAux_append]
      rw [ih (n / 10) hlt acc]
      unfold readDecimalAux
      rw [if_pos (by omega)]
      unfold readDecimalAux
      refine congrArg some ?_
      rw [List.length_append, List.length_singleton, pow_succ]
      have h48 : n % 10 + 48 - 48 = n % 10 := by omega
      rw [h48]
      calc (acc * 10 ^ (natToDigitBytes (n / 10)).length + n / 10) * 10 + n % 10
          = acc * 10 ^ (natToDigitBytes (n / 10)).length * 10 +
              (n / 10 * 10 + n % 10) := by ring
        _ = acc * (10 ^ (natToDigitBytes (n / 10)).length * 10) + n := by
            rw [Nat.mul_assoc]
            congr 1
            omega

theorem readDecimal_natToDigitBytes (n : Nat) :
    readDecimal (natToDigitBytes n) = some n := by
  rcases hk : natToDigitBytes n with _ | ⟨b, t⟩
  · exact absurd hk (natToDigitBytes_ne_nil n)
  · have h := readDecimalAux_natToDigitBytes n 0
    rw [hk] at h
    simp only [Nat.zero_mul, Nat.zero_add] at h
    show readDecimalAux (b :: t) 0 = some n
    exact h

theorem natToDigitBytes_head_48 :
    ∀ n b t, natToDigitBytes n = b :: t → b = 48 → n = 0 := by
  intro n
  induction n using Nat.strong_induction_on with
  | _ n ih =>
    intro b t hk hb
    rw [natToDigitBytes_eq] at hk
    by_cases hn : n < 10
    · rw [if_pos hn] at hk
      injection hk with h1 h2
      omega
    · rw [if_neg hn] at hk
      rcases hA : natToDigitBytes (n / 10) with _ | ⟨b', t'⟩
      · exact absurd hA (natToDigitBytes_ne_nil _)
      · rw [hA, List.cons_append] at hk
        injection hk with h1 h2
        have hlt : n / 10 < n := Nat.div_lt_self (by omega) (by omega)
        have := ih (n / 10) hlt b' t' hA (h1 ▸ hb)
        omega

theorem leadingZero_natToDigitBytes (n : Nat) :
    leadingZero (natToDigitBytes n) = false := by
  rcases hk : natToDigitBytes n with _ | ⟨b, t⟩
  · exact absurd hk (natToDigitBytes_ne_nil n)
  · rcases ht : t with _ | ⟨b2, t2⟩
    · subst ht
      unfold leadingZero
      split
      · next heq =>
        injection heq with he1 he2
        exact List.noConfusion he2
      · rfl
    · subst ht
      by_cases hb : b = 48
      · have h0 := natToDigitBytes_head_48 n b (b2 :: t2) hk hb
        subst h0
        rw [show natToDigitBytes 0 = [48] from rfl] at hk
        injection hk with h1 h2
        exact List.noConfusion h2
      · unfold leadingZero
        split
        · next heq =>
          injection heq with he1 he2
          exact absurd he1 hb
        · rfl

theorem parseOctet_natToDigitBytes {v : Nat} (h : v ≤ 255) :
    parseOctet (natToDigitBytes v) = some v := by
  unfold parseOctet
  rw [readDecimal_natToDigitBytes]
  show (if leadingZero (natToDigitBytes v) = true then none
    else if v ≤ 255 then some v else none) = some v
  rw [leadingZero_natToDigitBytes]
  rw [if_neg (by simp), if_pos h]

theorem stripPlus_of_head_ne {b : Nat} (t : List Nat) (hb : b ≠ 43) :
    stripPlus (b :: t) = b :: t := by
  show (if b = 43 then t else b :: t) = b :: t
  rw [if_neg hb]

theorem parseU16_natToDigitBytes {p : Nat} (h : p ≤ 65535) :
    parseU16 (natToDigitBytes p) = some p := by
  rcases hk : natToDigitBytes p with _ | ⟨b, t⟩
  · exact absurd hk (natToDigitBytes_ne_nil p)
  · have hb : b ≠ 43 := by
      have := natToDigitBytes_digits p b (hk ▸ List.mem_cons_self b t)
      omega
    unfold parseU16
    rw [stripPlus_of_head_ne t hb]
    rw [← hk]
    rw [readDecimal_natToDigitBytes]
    show (if p ≤ 65535 then some p else none) = some p
    rw [if_pos h]

theorem splitOnce_not_mem {c : Nat} : ∀ {l : List Nat}, c ∉ l → splitOnce c l = none := by
  intro l
  induction l with
  | nil => intro _; rfl
  | cons b t ih =>
    intro h
    have hb : ¬ b = c := fun hc => h (hc ▸ List.mem_cons_self b t)
    have ht : c ∉ t := fun hc => h (List.mem_cons_of_mem b hc)
    unfold splitOnce
    rw [if_neg hb, ih ht]

theorem splitOnce_append_cons {c : Nat} {l1 : List Nat} (l2 : List Nat) (h : c ∉ l1) :
    splitOnce c (l1 ++ c :: l2) = some (l1, l2) := by
  induction l1 with
  | nil =>
    show splitOnce c (c :: l2) = some ([], l2)
    unfold splitOnce
    rw [if_pos rfl]
  | cons b t ih =>
    have hb : ¬ b = c := fun hc => h (hc ▸ List.mem_cons_self b t)
    have ht : c ∉ t := fun hc => h (List.mem_cons_of_mem b hc)
    rw [List.cons_append]
    unfold splitOnce
    rw [if_neg hb, ih ht]

theorem splitOn_ne_nil {c : Nat} : ∀ (l : List Nat), splitOn c l ≠ [] := by
  intro l
  induction l with
  | nil => simp [splitOn]
  | cons b t ih =>
    unfold splitOn
    by_cases hb : b = c
    · rw [if_pos hb]
      simp
    · rw [if_neg hb]
      split
    -- after the inner match on splitOn c t
      · simp
      · simp

theorem splitOn_not_mem {c : Nat} : ∀ {l : List Nat}, c ∉ l → splitOn c l = [l] := by
  intro l
  induction l with
  | nil => intro _; rfl
  | cons b t ih =>
    intro h
    have hb : ¬ b = c := fun hc => h (hc ▸ List.mem_cons_self b t)
    have ht : c ∉ t := fun hc => h (List.mem_cons_of_mem b hc)
    unfold splitOn
    rw [if_neg hb, ih ht]

theorem splitOn_append_cons {c : Nat} {l1 : List Nat} (l2 : List Nat) (h : c ∉ l1) :
    splitOn c (l1 ++ c :: l2) = l1 :: splitOn c l2 := by
  induction l1 with
  | nil =>
    show splitOn c (c :: l2) = [] :: splitOn c l2
    conv_lhs => rw [splitOn]
    rw [if_pos rfl]
  | cons b t ih =>
    have hb : ¬ b = c := fun hc => h (hc ▸ List.mem_cons_self b t)
    have ht : c ∉ t := fun hc => h (List.mem_cons_of_mem b hc)
    rw [List.cons_append]
    conv_lhs => rw [splitOn]
    rw [if_neg hb, ih ht]

theorem readDecimalAux_digits :
    ∀ {l : List Nat} {acc v : Nat}, readDecimalAux l acc = some v →
      ∀ b ∈ l, 48 ≤ b ∧ b ≤ 57 := by
  intro l
  induction l with
  | nil => intro acc v _ b hb; cases hb
  | cons b0 t ih =>
    intro acc v h b hb
    unfold readDecimalAux at h
    split at h
    · next hd =>
      rcases List.mem_cons.1 hb with rfl | hb2
      · exact hd
      · exact ih h b hb2
    · exact Option.noConfusion h

theorem readDecimal_digits {l : List Nat} {v : Nat} (h : readDecimal l = some v) :
    ∀ b ∈ l, 48 ≤ b ∧ b ≤ 57 := by
  rcases l with _ | ⟨b0, t⟩
  · intro b hb; cases hb
  · exact readDecimalAux_digits h

theorem parseOctet_some {l : List Nat} {v : Nat} (h : parseOctet l = some v) :
    v ≤ 255 ∧ ∀ b ∈ l, 48 ≤ b ∧ b ≤ 57 := by
  unfold parseOctet at h
  split at h
  · next w heq =>
    split at h
    · exact Option.noConfusion h
    · split at h
      · next hle =>
        injection h with h
        subst h
        exact ⟨hle, readDecimal_digits heq⟩
      · exact Option.noConfusion h
  · exact Option.noConfusion h

theorem mem_splitOn {c : Nat} :
    ∀ {l : List Nat} {b : Nat}, b ∈ l → b = c ∨ ∃ comp ∈ splitOn c l, b ∈ comp := by
  intro l
  induction l with
  | nil => intro b hb; cases hb
  | cons b0 t ih =>
    intro b hb
    by_cases hb0 : b0 = c
    · rcases List.mem_cons.1 hb with rfl | hb2
      · exact Or.inl hb0
      · rcases ih hb2 with h1 | ⟨comp, hc1, hc2⟩
        · exact Or.inl h1
        · refine Or.inr ⟨comp, ?_, hc2⟩
          unfold splitOn
          rw [if_pos hb0]
          exact List.mem_cons_of_mem _ hc1
    · rcases hsp : splitOn c t with _ | ⟨h0, r⟩
      · exact absurd hsp (splitOn_ne_nil t)
      · rcases List.mem_cons.1 hb with rfl | hb2
        · refine Or.inr ⟨b :: h0, ?_, List.mem_cons_self _ _⟩
          unfold splitOn
          rw [if_neg hb0, hsp]
          exact List.mem_cons_self _ _
        · rcases ih hb2 with h1 | ⟨comp, hc1, hc2⟩
          · exact Or.inl h1
          · rw [hsp] at hc1
            rcases List.mem_cons.1 hc1 with rfl | hc3
            · refine Or.inr ⟨b0 :: comp, ?_, List.mem_cons_of_mem _ hc2⟩
              unfold splitOn
              rw [if_neg hb0, hsp]
              exact List.mem_cons_self _ _
            · refine Or.inr ⟨comp, ?_, hc2⟩
              unfold splitOn
              rw [if_neg hb0, hsp]
              exact List.mem_cons_of_mem _ hc3

theorem splitOnce_some {c : Nat} :
    ∀ {l x y : List Nat}, splitOnce c l = some (x, y) → l = x ++ c :: y ∧ c ∉ x := by
  intro l
  induction l with
  | nil => intro x y h; exact Option.noConfusion h
  | cons b t ih =>
    intro x y h
    unfold splitOnce at h
    by_cases hb : b = c
    · rw [if_pos hb] at h
      injection h with h
      injection h with h1 h2
      subst h1
      subst h2
      subst hb
      exact ⟨rfl, by simp⟩
    · rw [if_neg hb] at h
      split at h
      · next x' y' heq =>
        injection h with h
        injection h with h1 h2
        subst h1
        subst h2
        rcases ih heq with ⟨hd, hn⟩
        constructor
        · rw [List.cons_append, hd]
        · intro hc
          rcases List.mem_cons.1 hc with rfl | hc2
          · exact hb rfl
          · exact hn hc2
      · exact Option.noConfusion h

theorem parseU16_some {l : List Nat} {p : Nat} (h : parseU16 l = some p) :
    p ≤ 65535 ∧ ∀ b ∈ l, (48 ≤ b ∧ b ≤ 57) ∨ b = 43 := by
  unfold parseU16 at h
  split at h
  · next v heq =>
    split at h
    · next hle =>
      injection h with h
      subst h
      refine ⟨hle, ?_⟩
      intro b hb
      rcases l with _ | ⟨b0, t⟩
      · cases hb
      · by_cases hb0 : b0 = 43
        · subst hb0
          rcases List.mem_cons.1 hb with rfl | hb2
          · exact Or.inr rfl
          · have hstrip : stripPlus (43 :: t) = t := by
              show (if 43 = 43 then t else 43 :: t) = t
              rw [if_pos rfl]
            rw [hstrip] at heq
            exact Or.inl (readDecimal_digits heq b hb2)
        · rw [stripPlus_of_head_ne t hb0] at heq
          exact Or.inl (readDecimal_digits heq b hb)
    · exact Option.noConfusion h
  · exact Option.noConfusion h

theorem mem_fmtIpv4 {a : Ipv4Addr} {b : Nat} (hb : b ∈ fmtIpv4 a) :
    (48 ≤ b ∧ b ≤ 57) ∨ b = 46 := by
  unfold fmtIpv4 at hb
  rcases List.mem_append.1 hb with h | h
  · exact Or.inl (natToDigitBytes_digits _ _ h)
  rcases List.mem_cons.1 h with h | h
  · exact Or.inr h
  rcases List.mem_append.1 h with h | h
  · exact Or.inl (natToDigitBytes_digits _ _ h)
  rcases List.mem_cons.1 h with h | h
  · exact Or.inr h
  rcases List.mem_append.1 h with h | h
  · exact Or.inl (natToDigitBytes_digits _ _ h)
  rcases List.mem_cons.1 h with h | h
  · exact Or.inr h
  · exact Or.inl (natToDigitBytes_digits _ _ h)

theorem parseIpv4_fmtIpv4 {a : Ipv4Addr} (h : a.wf) : parseIpv4 (fmtIpv4 a) = some a := by
  obtain ⟨h1, h2, h3, h4⟩ := h
  have h46 : ∀ n : Nat, (46 : Nat) ∉ natToDigitBytes n := by
    intro n hc
    have := natToDigitBytes_digits n 46 hc
    omega
  unfold parseIpv4 fmtIpv4
  rw [splitOn_append_cons _ (h46 _), splitOn_append_cons _ (h46 _),
      splitOn_append_cons _ (h46 _), splitOn_not_mem (h46 _)]
  show quadOctets (natToDigitBytes a.a) (natToDigitBytes a.b) (natToDigitBytes a.c)
    (natToDigitBytes a.d) = some a
  unfold quadOctets
  rw [parseOctet_natToDigitBytes h1, parseOctet_natToDigitBytes h2,
      parseOctet_natToDigitBytes h3, parseOctet_natToDigitBytes h4]

theorem parseIpv4_some {l : List Nat} {a : Ipv4Addr} (h : parseIpv4 l = some a) :
    a.wf ∧ ∀ b ∈ l, (48 ≤ b ∧ b ≤ 57) ∨ b = 46 := by
  unfold parseIpv4 at h
  split at h
  · next s1 s2 s3 s4 hsp =>
    unfold quadOctets at h
    split at h
    · next v1 v2 v3 v4 ho1 ho2 ho3 ho4 =>
      injection h with h
      subst h
      rcases parseOctet_some ho1 with ⟨hv1, hb1⟩
      rcases parseOctet_some ho2 with ⟨hv2, hb2⟩
      rcases parseOctet_some ho3 with ⟨hv3, hb3⟩
      rcases parseOctet_some ho4 with ⟨hv4, hb4⟩
      refine ⟨⟨hv1, hv2, hv3, hv4⟩, ?_⟩
      intro b hb
      rcases mem_splitOn hb with heq | ⟨comp, hcm, hcb⟩
      · exact Or.inr heq
      · rw [hsp] at hcm
        rcases List.mem_cons.1 hcm with rfl | hcm
        · exact Or.inl (hb1 b hcb)
        rcases List.mem_cons.1 hcm with rfl | hcm
        · exact Or.inl (hb2 b hcb)
        rcases List.mem_cons.1 hcm with rfl | hcm
        · exact Or.inl (hb3 b hcb)
        rcases List.mem_cons.1 hcm with rfl | hcm
        · exact Or.inl (hb4 b hcb)
        · cases hcm
    · exact Option.noConfusion h
  · exact Option.noConfusion h

theorem mem_fmtRemotePeerAddr {r : RemotePeerAddr} {b : Nat}
    (hb : b ∈ fmtRemotePeerAddr r) : (48 ≤ b ∧ b ≤ 57) ∨ b = 46 ∨ b = 58 := by
  unfold fmtRemotePeerAddr at hb
  rcases List.mem_append.1 hb with h | h
  · rcases mem_fmtIpv4 h with h1 | h1
    · exact Or.inl h1
    · exact Or.inr (Or.inl h1)
  · rcases hr : r.port with _ | p
    · rw [hr] at h
      cases h
    · rw [hr] at h
      rcases List.mem_cons.1 h with rfl | h2
      · exact Or.inr (Or.inr rfl)
      · exact Or.inl (natToDigitBytes_digits _ _ h2)

theorem parseRemotePeerAddr_fmt {r : RemotePeerAddr} (h : r.wf) :
    parseRemotePeerAddr (fmtRemotePeerAddr r) = .ok r := by
  obtain ⟨addr, port⟩ := r
  obtain ⟨hwfa, hwfp⟩ := h
  have h58 : (58 : Nat) ∉ fmtIpv4 addr := by
    intro hc
    rcases mem_fmtIpv4 hc with h1 | h1 <;> omega
  rcases port with _ | p
  · have hfmt : fmtRemotePeerAddr ⟨addr, none⟩ = fmtIpv4 addr := by
      unfold fmtRemotePeerAddr
      simp
    rw [hfmt]
    unfold parseRemotePeerAddr
    rw [splitOnce_not_mem h58, parseIpv4_fmtIpv4 hwfa]
  · obtain ⟨hple, hpne⟩ := hwfp p rfl
    have hfmt : fmtRemotePeerAddr ⟨addr, some p⟩ =
        fmtIpv4 addr ++ 58 :: natToDigitBytes p := rfl
    rw [hfmt]
    unfold parseRemotePeerAddr
    rw [splitOnce_append_cons _ h58]
    show (match parseIpv4 (fmtIpv4 addr) with
      | none => (Except.error RemotePeerAddrParseError.invalidAddress :
          Except RemotePeerAddrParseError RemotePeerAddr)
      | some addr' =>
        match parseU16 (natToDigitBytes p) with
        | none => Except.error (RemotePeerAddrParseError.portNumber (natToDigitBytes p))
        | some port =>
          Except.ok ⟨addr', if port = NETWORK_PORT then none else some port⟩) =
      Except.ok ⟨addr, some p⟩
    rw [parseIpv4_fmtIpv4 hwfa, parseU16_natToDigitBytes hple]
    show (Except.ok ⟨addr, if p = NETWORK_PORT then none else some p⟩ :
        Except RemotePeerAddrParseError RemotePeerAddr) =
      Except.ok ⟨addr, some p⟩
    rw [if_neg hpne]

theorem parseRemotePeerAddr_ok {l : List Nat} {r : RemotePeerAddr}
    (h : parseRemotePeerAddr l = .ok r) :
    r.wf ∧ ∀ b ∈ l, (48 ≤ b ∧ b ≤ 57) ∨ b = 46 ∨ b = 58 ∨ b = 43 := by
  unfold parseRemotePeerAddr at h
  split at h
  · next a p hsp =>
    split at h
    · exact Except.noConfusion h
    · next addr haddr =>
      split at h
      · exact Except.noConfusion h
      · next port hport =>
        injection h with h
        subst h
        rcases parseIpv4_some haddr with ⟨hwfa, hba⟩
        rcases parseU16_some hport with ⟨hple, hbp⟩
        rcases splitOnce_some hsp with ⟨hdec, hnm⟩
        constructor
        · refine ⟨hwfa, ?_⟩
          intro q hq
          by_cases hp : port = NETWORK_PORT
          · rw [show ((if port = NETWORK_PORT then none else some port) :
              Option Nat) = none from if_pos hp] at hq
            exact Option.noConfusion hq
          · rw [show ((if port = NETWORK_PORT then none else some port) :
              Option Nat) = some port from if_neg hp] at hq
            injection hq with hq
            subst hq
            exact ⟨hple, hp⟩
        · intro b hb
          rw [hdec] at hb
          rcases List.mem_append.1 hb with h1 | h1
          · rcases hba b h1 with h2 | h2
            · exact Or.inl h2
            · exact Or.inr (Or.inl h2)
          · rcases List.mem_cons.1 h1 with rfl | h2
            · exact Or.inr (Or.inr (Or.inl rfl))
            · rcases hbp b h2 with h3 | h3
              · exact Or.inl h3
              · exact Or.inr (Or.inr (Or.inr h3))
  · split at h
    · exact Except.noConfusion h
    · next addr haddr =>
      injection h with h
      subst h
      rcases parseIpv4_some haddr with ⟨hwfa, hba⟩
      constructor
      · exact ⟨hwfa, fun q hq => Option.noConfusion hq⟩
      · intro b hb
        rcases hba b hb with h1 | h1
        · exact Or.inl h1
        · exact Or.inr (Or.inl h1)

theorem parseFullShareName_fmt {f : FullShareName} (h : f.wf) :
    parseFullShareName (fmtFullShareName f) = .ok f := by
  obtain ⟨addr, name⟩ := f
  obtain ⟨hwfa, hlen⟩ := h
  have h47 : (47 : Nat) ∉ fmtRemotePeerAddr addr := by
    intro hc
    rcases mem_fmtRemotePeerAddr hc with h1 | h1 | h1 <;> omega
  have hfmt : fmtFullShareName ⟨addr, name⟩ = fmtRemotePeerAddr addr ++ 47 :: name := rfl
  rw [hfmt]
  unfold parseFullShareName
  rw [splitOnce_append_cons _ h47]
  have hlen' : name.length ≤ MAX_SHARE_NAME_LENGTH := hlen
  have hcn : parseCommonShareName name = .ok name := by
    unfold parseCommonShareName
    rw [if_neg (by omega)]
  show (match parseRemotePeerAddr (fmtRemotePeerAddr addr) with
    | .error e => (Except.error (FullShareNameParseError.invalidAddress e) :
        Except FullShareNameParseError FullShareName)
    | .ok addr' =>
      match parseCommonShareName name with
      | .error e => Except.error (FullShareNameParseError.invalidCommonShareName e)
      | .ok name' => Except.ok ⟨addr', name'⟩) = Except.ok ⟨addr, name⟩
  rw [parseRemotePeerAddr_fmt hwfa, hcn]

theorem parseFullShareName_ok {l : List Nat} {f : FullShareName}
    (h : parseFullShareName l = .ok f) : f.wf := by
  unfold parseFullShareName at h
  split at h
  · exact Except.noConfusion h
  · next raw_addr raw_name hsp =>
    split at h
    · exact Except.noConfusion h
    · next addr haddr =>
      split at h
      · exact Except.noConfusion h
      · next name hname =>
        injection h with h
        subst h
        refine ⟨(parseRemotePeerAddr_ok haddr).1, ?_⟩
        unfold parseCommonShareName at hname
        split at hname
        · exact Except.noConfusion hname
        · next hle =>
          injection hname with hname
          subst hname
          show raw_name.length ≤ MAX_SHARE_NAME_LENGTH
          omega

/-- C8 counterexample: the nine-byte string "1.2.3.4/x" is a valid common name
(at most 60 bytes, CommonShareName::from_str accepts it), yet
ShareName::from_str parses it as the Full variant because the full form is
tried first — refuting "parsing c as a ShareName yields the Common variant"
for every common name c of at most 60 bytes. -/
theorem c8_common_sized_string_parses_full :
    ([49, 46, 50, 46, 51, 46, 52, 47, 120] : List Nat).length ≤ MAX_SHARE_NAME_LENGTH ∧
    parseCommonShareName [49, 46, 50, 46, 51, 46, 52, 47, 120] =
      .ok [49, 46, 50, 46, 51, 46, 52, 47, 120] ∧
    parseShareName [49, 46, 50, 46, 51, 46, 52, 47, 120] =
      .ok (.full ⟨⟨⟨1, 2, 3, 4⟩, none⟩, [120]⟩) ∧
    ShareName.isCommon (.full ⟨⟨⟨1, 2, 3, 4⟩, none⟩, [120]⟩) = false := by decide

/-- C8 amended: share-name parsing round-trips and normalises the default
port — for every string that parses as a full share name, formatting the
parsed value and reparsing gives the same value; parsing "IP:29284/NAME" (the
default port) yields the same value as parsing "IP/NAME"; and for every
string of at most 60 bytes that does not parse as a full share name, parsing
it as a ShareName yields the Common variant and formatting returns it
unchanged (a string of at most 60 bytes that does parse as a full name — such
as "1.2.3.4/x" — yields the Full variant instead, since the full form is
tried first). -/
theorem c8_share_name_roundtrip :
    (∀ (l : List Nat) (f : FullShareName), parseShareName l = .ok (.full f) →
      parseShareName (fmtShareName (.full f)) = .ok (.full f)) ∧
    (∀ (ip nm : List Nat) (a : Ipv4Addr), parseIpv4 ip = some a →
      nm.length ≤ MAX_SHARE_NAME_LENGTH →
      parseShareName (ip ++ 58 :: ([50, 57, 50, 56, 52] ++ 47 :: nm)) =
        .ok (.full ⟨⟨a, none⟩, nm⟩) ∧
      parseShareName (ip ++ 47 :: nm) = .ok (.full ⟨⟨a, none⟩, nm⟩)) ∧
    (∀ (c : List Nat) (fe : FullShareNameParseError), c.length ≤ MAX_SHARE_NAME_LENGTH →
      parseFullShareName c = .error fe →
      parseShareName c = .ok (.common c) ∧ fmtShareName (.common c) = c) := by
  have hps : ∀ (l : List Nat) (f : FullShareName),
      parseFullShareName l = .ok f → parseShareName l = .ok (.full f) := by
    intro l f hf
    unfold parseShareName
    rw [hf]
  refine ⟨?_, ?_, ?_⟩
  · intro l f h
    unfold parseShareName at h
    split at h
    · next f' heq =>
      injection h with h
      injection h with h
      subst h
      have hwf := parseFullShareName_ok heq
      exact hps _ _ (parseFullShareName_fmt hwf)
    · split at h
      · injection h with h
        exact ShareName.noConfusion h
      · exact Except.noConfusion h
  · intro ip nm a hip hlen
    have hipb := (parseIpv4_some hip).2
    have h47ip : (47 : Nat) ∉ ip := by
      intro hc
      rcases hipb 47 hc with h1 | h1 <;> omega
    have h58ip : (58 : Nat) ∉ ip := by
      intro hc
      rcases hipb 58 hc with h1 | h1 <;> omega
    have hcn : parseCommonShareName nm = .ok nm := by
      unfold parseCommonShareName
      rw [if_neg (by omega)]
    have h47' : (47 : Nat) ∉ ip ++ 58 :: [50, 57, 50, 56, 52] := by
      intro hc
      rcases List.mem_append.1 hc with h1 | h1
      · exact h47ip h1
      · rcases List.mem_cons.1 h1 with h2 | h2
        · exact absurd h2 (by decide)
        · exact absurd h2 (by decide)
    have hpra : parseRemotePeerAddr (ip ++ 58 :: [50, 57, 50, 56, 52]) = .ok ⟨a, none⟩ := by
      unfold parseRemotePeerAddr
      rw [splitOnce_append_cons _ h58ip]
      show (match parseIpv4 ip with
        | none => (Except.error RemotePeerAddrParseError.invalidAddress :
            Except RemotePeerAddrParseError RemotePeerAddr)
        | some addr' =>
          match parseU16 [50, 57, 50, 56, 52] with
          | none => Except.error (RemotePeerAddrParseError.portNumber [50, 57, 50, 56, 52])
          | some port =>
            Except.ok ⟨addr', if port = NETWORK_PORT then none else some port⟩) =
        Except.ok ⟨a, none⟩
      rw [hip, show parseU16 [50, 57, 50, 56, 52] = some NETWORK_PORT from by decide]
      show (Except.ok ⟨a, if NETWORK_PORT = NETWORK_PORT then none else some NETWORK_PORT⟩ :
          Except RemotePeerAddrParseError RemotePeerAddr) = Except.ok ⟨a, none⟩
      rw [if_pos rfl]
    have hpra2 : parseRemotePeerAddr ip = .ok ⟨a, none⟩ := by
      unfold parseRemotePeerAddr
      rw [splitOnce_not_mem h58ip]
      show (match parseIpv4 ip with
        | none => (Except.error RemotePeerAddrParseError.invalidAddress :
            Except RemotePeerAddrParseError RemotePeerAddr)
        | some addr' => Except.ok ⟨addr', none⟩) = Except.ok ⟨a, none⟩
      rw [hip]
    have hfull1 : parseFullShareName ((ip ++ 58 :: [50, 57, 50, 56, 52]) ++ 47 :: nm) =
        .ok ⟨⟨a, none⟩, nm⟩ := by
      unfold parseFullShareName
      rw [splitOnce_append_cons _ h47']
      show (match parseRemotePeerAddr (ip ++ 58 :: [50, 57, 50, 56, 52]) with
        | .error e => (Except.error (FullShareNameParseError.invalidAddress e) :
            Except FullShareNameParseError FullShareName)
        | .ok addr' =>
          match parseCommonShareName nm with
          | .error e => Except.error (FullShareNameParseError.invalidCommonShareName e)
          | .ok name' => Except.ok ⟨addr', name'⟩) = Except.ok ⟨⟨a, none⟩, nm⟩
      rw [hpra, hcn]
    have hfull2 : parseFullShareName (ip ++ 47 :: nm) = .ok ⟨⟨a, none⟩, nm⟩ := by
      unfold parseFullShareName
      rw [splitOnce_append_cons _ h47ip]
      show (match parseRemotePeerAddr ip with
        | .error e => (Except.error (FullShareNameParseError.invalidAddress e) :
            Except FullShareNameParseError FullShareName)
        | .ok addr' =>
          match parseCommonShareName nm with
          | .error e => Except.error (FullShareNameParseError.invalidCommonShareName e)
          | .ok name' => Except.ok ⟨addr', name'⟩) = Except.ok ⟨⟨a, none⟩, nm⟩
      rw [hpra2, hcn]
    have hS : ip ++ 58 :: ([50, 57, 50, 56, 52] ++ 47 :: nm) =
        (ip ++ 58 :: [50, 57, 50, 56, 52]) ++ 47 :: nm := by
      simp [List.append_assoc]
    exact ⟨by rw [hS]; exact hps _ _ hfull1, hps _ _ hfull2⟩
  · intro c fe hlen hful
    have hcn : parseCommonShareName c = .ok c := by
      unfold parseCommonShareName
      rw [if_neg (by omega)]
    constructor
    · unfold parseShareName
      rw [hful]
      show (match parseCommonShareName c with
        | .ok cc => (Except.ok (ShareName.common cc) :
            Except ShareNameParseError ShareName)
        | .error _ => Except.error (ShareNameParseError.failedToParseAsAny fe)) =
        Except.ok (ShareName.common c)
      rw [hcn]
    · rfl

/-- Witness for c8_share_name_roundtrip: the full name "1.2.3.4:80/x"
round-trips through format and reparse; "1.2.3.4:29284/x" and "1.2.3.4/x"
parse to the same value; and "hi" parses as a common name that formats back
unchanged. -/
theorem c8_share_name_roundtrip_witness :
    parseShareName (fmtShareName (.full ⟨⟨⟨1, 2, 3, 4⟩, some 80⟩, [120]⟩)) =
      .ok (.full ⟨⟨⟨1, 2, 3, 4⟩, some 80⟩, [120]⟩) ∧
    parseShareName [49, 46, 50, 46, 51, 46, 52, 58, 50, 57, 50, 56, 52, 47, 120] =
      .ok (.full ⟨⟨⟨1, 2, 3, 4⟩, none⟩, [120]⟩) ∧
    parseShareName [104, 105] = .ok (.common [104, 105]) := by
  refine ⟨?_, ?_, ?_⟩
  · exact c8_share_name_roundtrip.1 [49, 46, 50, 46, 51, 46, 52, 58, 56, 48, 47, 120]
      ⟨⟨⟨1, 2, 3, 4⟩, some 80⟩, [120]⟩ (by decide)
  · have h := (c8_share_name_roundtrip.2.1 [49, 46, 50, 46, 51, 46, 52] [120]
      ⟨1, 2, 3, 4⟩ (by decide) (by decide)).1
    exact h
  · exact (c8_share_name_roundtrip.2.2 [104, 105] .noSeparator (by decide) (by decide)).1

/-! ## Claims C1 and C2: invariant preservation machinery -/

theorem I3_snd_of_fst {s : State}
    (h1 : ∀ e ∈ s.peers, alookup s.peers_by_socket e.2.address = some e.1) :
    ∀ e ∈ s.peers, ∀ e' ∈ s.peers, e.2.address = e'.2.address → e.1 = e'.1 := by
  intro e he e' he' haddr
  have q1 := h1 e he
  have q2 := h1 e' he'
  rw [haddr] at q1
  rw [q1] at q2
  exact Option.some.inj q2

theorem I3_update_same_addr {s : State} {pid : PeerId} {p p' : Peer} {t : State}
    (hnd : (keys s.peers).Nodup)
    (ht : t.peers = ainsert s.peers pid p')
    (hb : t.peers_by_socket = s.peers_by_socket)
    (hp : alookup s.peers pid = some p) (ha : p'.address = p.address) (h3 : I3 s) :
    I3 t := by
  obtain ⟨h31, _⟩ := h3
  have h1 : ∀ e ∈ t.peers, alookup t.peers_by_socket e.2.address = some e.1 := by
    intro e he
    rw [ht] at he
    rw [hb]
    rcases (mem_ainsert_iff hnd).1 he with rfl | ⟨hm, hne⟩
    · show alookup s.peers_by_socket p'.address = some pid
      rw [ha]
      exact h31 (pid, p) (alookup_mem hp)
    · exact h31 e hm
  exact ⟨h1, I3_snd_of_fst h1⟩

theorem I3_erase {s : State} {pid : PeerId} {t : State}
    (ht : t.peers = aerase s.peers pid)
    (hb : t.peers_by_socket = s.peers_by_socket) (h3 : I3 s) : I3 t := by
  obtain ⟨h31, _⟩ := h3
  have h1 : ∀ e ∈ t.peers, alookup t.peers_by_socket e.2.address = some e.1 := by
    intro e he
    rw [ht] at he
    rw [hb]
    exact h31 e (mem_aerase_iff.1 he).1
  exact ⟨h1, I3_snd_of_fst h1⟩

theorem tryDrop_I3 {s : State} {pid : PeerId} {s' : State} {evs : List Event} {b : Bool}
    (h : tryDropPeer s pid = some (s', evs, b)) (h3 : I3 s) :
    I3 s' ∧ s'.peers_by_socket = s.peers_by_socket ∧ s'.shares = s.shares ∧
      s'.remote_shares = s.remote_shares ∧
      ((keys s.peers).Nodup → (keys s'.peers).Nodup) := by
  unfold tryDropPeer at h
  split at h
  · exact Option.noConfusion h
  · next p hp =>
    split at h
    · injection h with h
      injection h with h1 h2
      subst h1
      exact ⟨I3_erase rfl rfl h3, rfl, rfl, rfl, fun hnd => keys_nodup_aerase _ hnd⟩
    · injection h with h
      injection h with h1 h2
      subst h1
      exact ⟨h3, rfl, rfl, rfl, fun hnd => hnd⟩

theorem removeShareLoop_I3 {name : CommonShareName} :
    ∀ {l : List PeerId} {s : State} {evs0 : List Event} {s1 : State} {evs1 : List Event},
      removeShareLoop name l s evs0 = some (s1, evs1) →
      (keys s.peers).Nodup → I3 s →
      I3 s1 ∧ s1.peers_by_socket = s.peers_by_socket ∧ s1.shares = s.shares ∧
        s1.remote_shares = s.remote_shares := by
  intro l
  induction l with
  | nil =>
    intro s evs0 s1 evs1 h hnd h3
    unfold removeShareLoop at h
    injection h with h
    injection h with h1 h2
    subst h1
    exact ⟨h3, rfl, rfl, rfl⟩
  | cons pid rest ih =>
    intro s evs0 s1 evs1 h hnd h3
    unfold removeShareLoop at h
    split at h
    · exact Option.noConfusion h
    · next p hp =>
      split at h
      · split at h
        · simp only [] at h
          split at h
          · exact Option.noConfusion h
          · next s2 evs2 b heq =>
            have hmid : I3 (State.mk s.next_peer_id
                (ainsert s.peers pid { p with used_shares := sremove p.used_shares name })
                s.peers_by_socket s.shares s.remote_shares) :=
              I3_update_same_addr hnd rfl rfl hp rfl h3
            have hndmid : (keys (ainsert s.peers pid
                { p with used_shares := sremove p.used_shares name })).Nodup :=
              keys_nodup_ainsert _ _ hnd
            rcases tryDrop_I3 heq hmid with ⟨h3b, hpb, hshb, hrsb, hndf⟩
            rcases ih h (hndf hndmid) h3b with ⟨hfin, hb1, hb2, hb3⟩
            refine ⟨hfin, ?_, ?_, ?_⟩
            · rw [hb1, hpb]
            · rw [hb2, hshb]
            · rw [hb3, hrsb]
        · exact Option.noConfusion h
      · exact Option.noConfusion h

theorem I3_of_eq {s t : State} (hp : t.peers = s.peers)
    (hb : t.peers_by_socket = s.peers_by_socket) (h3 : I3 s) : I3 t := by
  obtain ⟨h1, h2⟩ := h3
  constructor
  · intro e he
    rw [hb]
    exact h1 e (hp ▸ he)
  · intro e he e' he' ha
    exact h2 e (hp ▸ he) e' (hp ▸ he') ha

theorem I3_insert_new_addr {s : State} {pid : PeerId} {p' : Peer} {t : State}
    (hnd : (keys s.peers).Nodup)
    (ht : t.peers = ainsert s.peers pid p')
    (hb : t.peers_by_socket = ainsert s.peers_by_socket p'.address pid)
    (haddr : ∀ e ∈ s.peers, e.2.address ≠ p'.address)
    (h3 : I3 s) : I3 t := by
  obtain ⟨h31, _⟩ := h3
  have h1 : ∀ e ∈ t.peers, alookup t.peers_by_socket e.2.address = some e.1 := by
    intro e he
    rw [ht] at he
    rw [hb]
    rcases (mem_ainsert_iff hnd).1 he with rfl | ⟨hm, hne⟩
    · show alookup (ainsert s.peers_by_socket p'.address pid) p'.address = some pid
      exact alookup_ainsert_self _ _ _
    · rw [alookup_ainsert_ne _ _ (haddr e hm)]
      exact h31 e hm
  exact ⟨h1, I3_snd_of_fst h1⟩

/-- C2: corrected.  Amended form: every operation that returns a state (Ok or
typed error) preserves invariant I3 from a well-formed state satisfying it —
except that join_remote_share_new needs the extra precondition that no live
peer already uses the supplied address, because it overwrites the
peers_by_socket binding unconditionally (the claim's "in particular this is
preserved by join_remote_share_new when the supplied peer's address is already
bound" is exactly the failing case, refuted by c2_rebind_breaks_i3). -/
theorem c2_i3_preserved :
    (∀ (s : State) (peer : Peer) (n : CommonShareName) (s' : State), Wf s → I3 s →
      (newPeerConnectedToShare s peer n).stateOf? = some s' → I3 s') ∧
    (∀ (s : State) (pid : PeerId) (n : CommonShareName) (s' : State), Wf s → I3 s →
      (peerConnectedToShare s pid n).stateOf? = some s' → I3 s') ∧
    (∀ (s : State) (pid : PeerId) (n : CommonShareName) (s' : State), Wf s → I3 s →
      (peerDisconnectedFromShare s pid n).stateOf? = some s' → I3 s') ∧
    (∀ (s : State) (pid : PeerId) (n : CommonShareName) (s' : State), Wf s → I3 s →
      (kickPeerFromShare s pid n).stateOf? = some s' → I3 s') ∧
    (∀ (s : State) (share : Share) (s' : State), Wf s → I3 s →
      (addShare s share).stateOf? = some s' → I3 s') ∧
    (∀ (s : State) (n : CommonShareName) (s' : State), Wf s → I3 s →
      (removeShare s n).stateOf? = some s' → I3 s') ∧
    (∀ (s : State) (peer : Peer) (fn : FullShareName) (mp : List Nat) (s' : State),
      Wf s → I3 s → (∀ e ∈ s.peers, e.2.address ≠ peer.address) →
      (joinRemoteShareNew s peer fn mp).stateOf? = some s' → I3 s') ∧
    (∀ (s : State) (pid : PeerId) (fn : FullShareName) (mp : List Nat) (s' : State),
      Wf s → I3 s → (joinRemoteShare s pid fn mp).stateOf? = some s' → I3 s') ∧
    (∀ (s : State) (pid : PeerId) (fn : FullShareName) (s' : State), Wf s → I3 s →
      (exitRemoteShare s pid fn).stateOf? = some s' → I3 s') := by
  refine ⟨?_, ?_, ?_, ?_, ?_, ?_, ?_, ?_, ?_⟩
  · intro s peer n s' hw h3 h
    unfold newPeerConnectedToShare at h
    split at h
    · exact Option.some.inj h ▸ h3
    · next hc1 =>
      split at h
      · exact Option.some.inj h ▸ h3
      · split at h
        · exact Option.noConfusion h
        · next peer_id next' hnid =>
          simp only [] at h
          have hs := Option.some.inj h
          subst hs
          refine I3_insert_new_addr hw.1 rfl rfl ?_ h3
          intro e he hc
          have hc' : e.2.address = peer.address := hc
          refine hc1 ?_
          rw [← hc', h3.1 e he]
          rfl
  · intro s pid n s' hw h3 h
    unfold peerConnectedToShare at h
    split at h
    · exact Option.some.inj h ▸ h3
    · split at h
      · exact Option.noConfusion h
      · next peer hp =>
        have hs := Option.some.inj h
        subst hs
        exact I3_update_same_addr hw.1 rfl rfl hp rfl h3
  · intro s pid n s' hw h3 h
    unfold peerDisconnectedFromShare at h
    split at h
    · exact Option.noConfusion h
    · next peer hp =>
      split at h
      · exact Option.some.inj h ▸ h3
      · split at h
        · simp only [] at h
          split at h
          · exact Option.noConfusion h
          · next s2 evs b heq =>
            have hs := Option.some.inj h
            subst hs
            exact (tryDrop_I3 heq (I3_update_same_addr hw.1 rfl rfl hp rfl h3)).1
        · exact Option.some.inj h ▸ h3
  · intro s pid n s' hw h3 h
    unfold kickPeerFromShare at h
    split at h
    · exact Option.noConfusion h
    · next peer hp =>
      split at h
      · exact Option.some.inj h ▸ h3
      · split at h
        · split at h
          · simp only [] at h
            split at h
            · exact Option.noConfusion h
            · next s2 evs b heq =>
              have hs := Option.some.inj h
              subst hs
              exact (tryDrop_I3 heq (I3_update_same_addr hw.1 rfl rfl hp rfl h3)).1
          · exact Option.noConfusion h
        · exact Option.some.inj h ▸ h3
  · intro s share s' hw h3 h
    unfold addShare at h
    split at h
    · exact Option.some.inj h ▸ h3
    · have hs := Option.some.inj h
      subst hs
      exact I3_of_eq rfl rfl h3
  · intro s n s' hw h3 h
    unfold removeShare at h
    split at h
    · exact Option.some.inj h ▸ h3
    · simp only [] at h
      split at h
      · exact Option.noConfusion h
      · next s1 evs hloop =>
        have hs := Option.some.inj h
        subst hs
        exact (removeShareLoop_I3 hloop hw.1 (I3_of_eq rfl rfl h3)).1
  · intro s peer fn mp s' hw h3 haddr h
    unfold joinRemoteShareNew at h
    split at h
    · exact Option.some.inj h ▸ h3
    · split at h
      · exact Option.noConfusion h
      · next peer_id next' hnid =>
        simp only [] at h
        have hs := Option.some.inj h
        subst hs
        exact I3_insert_new_addr hw.1 rfl rfl haddr h3
  · intro s pid fn mp s' hw h3 h
    unfold joinRemoteShare at h
    split at h
    · exact Option.some.inj h ▸ h3
    · split at h
      · exact Option.noConfusion h
      · next peer hp =>
        simp only [] at h
        have hs := Option.some.inj h
        subst hs
        exact I3_update_same_addr hw.1 rfl rfl hp rfl h3
  · intro s pid fn s' hw h3 h
    unfold exitRemoteShare at h
    split at h
    · exact Option.noConfusion h
    · next peer hp =>
      split at h
      · simp only [] at h
        split at h
        · exact Option.noConfusion h
        · split at h
          · exact Option.noConfusion h
          · next s3 evs b heq =>
            have hs := Option.some.inj h
            subst hs
            have hmid : I3 (State.mk s.next_peer_id
                (ainsert s.peers pid
                  { peer with used_remote_shares := sremove peer.used_remote_shares fn })
                s.peers_by_socket s.shares s.remote_shares) :=
              I3_update_same_addr hw.1 rfl rfl hp rfl h3
            exact (tryDrop_I3 heq (I3_of_eq rfl rfl hmid)).1
      · exact Option.some.inj h ▸ h3

theorem alookup_isSome_of_mem_keys {K V : Type} [DecidableEq K] {l : List (K × V)} {k : K}
    (h : k ∈ keys l) : (alookup l k).isSome = true := by
  induction l with
  | nil => cases h
  | cons e t ih =>
    by_cases he : e.1 = k
    · show (if e.1 = k then some e.2 else alookup t k).isSome = true
      rw [if_pos he]
      rfl
    · show (if e.1 = k then some e.2 else alookup t k).isSome = true
      rw [if_neg he]
      apply ih
      have h' : k ∈ e.1 :: keys t := h
      rcases List.mem_cons.1 h' with h1 | h1
      · exact absurd h1.symm he
      · exact h1

theorem mirrorsShare_of_eq {s t : State} (h : t.shares = s.shares) {pid : PeerId}
    {n : CommonShareName} (hm : mirrorsShare s pid n) : mirrorsShare t pid n := by
  obtain ⟨q, hq, hx⟩ := hm
  exact ⟨q, by rw [h]; exact hq, hx⟩

theorem usesShare_of_eq {s t : State} (h : t.peers = s.peers) {pid : PeerId}
    {n : CommonShareName} (hm : usesShare s pid n) : usesShare t pid n := by
  obtain ⟨q, hq, hx⟩ := hm
  exact ⟨q, by rw [h]; exact hq, hx⟩

theorem ownsRemote_of_eq {s t : State} (h : t.remote_shares = s.remote_shares) {pid : PeerId}
    {fn : FullShareName} (hm : ownsRemote s pid fn) : ownsRemote t pid fn := by
  obtain ⟨q, hq, hx⟩ := hm
  exact ⟨q, by rw [h]; exact hq, hx⟩

theorem usesRemote_of_eq {s t : State} (h : t.peers = s.peers) {pid : PeerId}
    {fn : FullShareName} (hm : usesRemote s pid fn) : usesRemote t pid fn := by
  obtain ⟨q, hq, hx⟩ := hm
  exact ⟨q, by rw [h]; exact hq, hx⟩

theorem usesShare_update {s t : State} {pid : PeerId} {peer p' : Peer}
    (hp : alookup s.peers pid = some peer)
    (ht : t.peers = ainsert s.peers pid p')
    {pid' : PeerId} {n : CommonShareName} (h : usesShare s pid' n)
    (hcase : pid' = pid → n ∈ peer.used_shares → n ∈ p'.used_shares) :
    usesShare t pid' n := by
  obtain ⟨q, hq, hx⟩ := h
  by_cases hk : pid' = pid
  · subst hk
    rw [hp] at hq
    injection hq with hq
    subst hq
    exact ⟨p', by rw [ht]; exact alookup_ainsert_self _ _ _, hcase rfl hx⟩
  · exact ⟨q, by rw [ht, alookup_ainsert_ne _ _ hk]; exact hq, hx⟩

theorem usesRemote_update {s t : State} {pid : PeerId} {peer p' : Peer}
    (hp : alookup s.peers pid = some peer)
    (ht : t.peers = ainsert s.peers pid p')
    {pid' : PeerId} {fn : FullShareName} (h : usesRemote s pid' fn)
    (hcase : pid' = pid → fn ∈ peer.used_remote_shares → fn ∈ p'.used_remote_shares) :
    usesRemote t pid' fn := by
  obtain ⟨q, hq, hx⟩ := h
  by_cases hk : pid' = pid
  · subst hk
    rw [hp] at hq
    injection hq with hq
    subst hq
    exact ⟨p', by rw [ht]; exact alookup_ainsert_self _ _ _, hcase rfl hx⟩
  · exact ⟨q, by rw [ht, alookup_ainsert_ne _ _ hk]; exact hq, hx⟩

theorem mirrorsShare_update {s t : State} {n : CommonShareName} {share sh' : Share}
    (hsh : alookup s.shares n = some share)
    (ht : t.shares = ainsert s.shares n sh')
    {pid : PeerId} {n' : CommonShareName} (h : mirrorsShare s pid n')
    (hcase : n' = n → pid ∈ share.participants → pid ∈ sh'.participants) :
    mirrorsShare t pid n' := by
  obtain ⟨q, hq, hx⟩ := h
  by_cases hk : n' = n
  · subst hk
    rw [hsh] at hq
    injection hq with hq
    subst hq
    exact ⟨sh', by rw [ht]; exact alookup_ainsert_self _ _ _, hcase rfl hx⟩
  · exact ⟨q, by rw [ht, alookup_ainsert_ne _ _ hk]; exact hq, hx⟩

theorem usesShare_insert_fresh {s t : State} {pid : PeerId} {p' : Peer}
    (hnone : alookup s.peers pid = none)
    (ht : t.peers = ainsert s.peers pid p')
    {pid' : PeerId} {n : CommonShareName} (h : usesShare s pid' n) : usesShare t pid' n := by
  obtain ⟨q, hq, hx⟩ := h
  by_cases hk : pid' = pid
  · subst hk
    rw [hnone] at hq
    exact Option.noConfusion hq
  · exact ⟨q, by rw [ht, alookup_ainsert_ne _ _ hk]; exact hq, hx⟩

theorem usesRemote_insert_fresh {s t : State} {pid : PeerId} {p' : Peer}
    (hnone : alookup s.peers pid = none)
    (ht : t.peers = ainsert s.peers pid p')
    {pid' : PeerId} {fn : FullShareName} (h : usesRemote s pid' fn) : usesRemote t pid' fn := by
  obtain ⟨q, hq, hx⟩ := h
  by_cases hk : pid' = pid
  · subst hk
    rw [hnone] at hq
    exact Option.noConfusion hq
  · exact ⟨q, by rw [ht, alookup_ainsert_ne _ _ hk]; exact hq, hx⟩

theorem ownsRemote_insert_fresh {s t : State} {fn : FullShareName} {rs : RemoteShare}
    (hnone : alookup s.remote_shares fn = none)
    (ht : t.remote_shares = ainsert s.remote_shares fn rs)
    {pid' : PeerId} {fn' : FullShareName} (h : ownsRemote s pid' fn') :
    ownsRemote t pid' fn' := by
  obtain ⟨q, hq, hx⟩ := h
  by_cases hk : fn' = fn
  · subst hk
    rw [hnone] at hq
    exact Option.noConfusion hq
  · exact ⟨q, by rw [ht, alookup_ainsert_ne _ _ hk]; exact hq, hx⟩

theorem mirrorsShare_insert_fresh {s t : State} {n : CommonShareName} {sh' : Share}
    (hnone : alookup s.shares n = none)
    (ht : t.shares = ainsert s.shares n sh')
    {pid : PeerId} {n' : CommonShareName} (h : mirrorsShare s pid n') :
    mirrorsShare t pid n' := by
  obtain ⟨q, hq, hx⟩ := h
  by_cases hk : n' = n
  · subst hk
    rw [hnone] at hq
    exact Option.noConfusion hq
  · exact ⟨q, by rw [ht, alookup_ainsert_ne _ _ hk]; exact hq, hx⟩

theorem usesShare_erase {s t : State} {pid : PeerId}
    (ht : t.peers = aerase s.peers pid)
    {pid' : PeerId} {n : CommonShareName} (hk : pid' ≠ pid)
    (h : usesShare s pid' n) : usesShare t pid' n := by
  obtain ⟨q, hq, hx⟩ := h
  exact ⟨q, by rw [ht, alookup_aerase_ne _ hk]; exact hq, hx⟩

theorem usesRemote_erase {s t : State} {pid : PeerId}
    (ht : t.peers = aerase s.peers pid)
    {pid' : PeerId} {fn : FullShareName} (hk : pid' ≠ pid)
    (h : usesRemote s pid' fn) : usesRemote t pid' fn := by
  obtain ⟨q, hq, hx⟩ := h
  exact ⟨q, by rw [ht, alookup_aerase_ne _ hk]; exact hq, hx⟩

theorem ownsRemote_erase {s t : State} {fn : FullShareName}
    (ht : t.remote_shares = aerase s.remote_shares fn)
    {pid' : PeerId} {fn' : FullShareName} (hk : fn' ≠ fn)
    (h : ownsRemote s pid' fn') : ownsRemote t pid' fn' := by
  obtain ⟨q, hq, hx⟩ := h
  exact ⟨q, by rw [ht, alookup_aerase_ne _ hk]; exact hq, hx⟩

theorem tryDrop_cases {s : State} {pid : PeerId} {s' : State} {evs : List Event} {b : Bool}
    (h : tryDropPeer s pid = some (s', evs, b)) :
    s' = s ∨
    ∃ q, alookup s.peers pid = some q ∧ q.used_shares = [] ∧ q.used_remote_shares = [] ∧
      s'.peers = aerase s.peers pid ∧ s'.peers_by_socket = s.peers_by_socket ∧
      s'.shares = s.shares ∧ s'.remote_shares = s.remote_shares := by
  unfold tryDropPeer at h
  split at h
  · exact Option.noConfusion h
  · next q hq =>
    split at h
    · next hemp =>
      injection h with h
      injection h with hA hB
      subst hA
      exact Or.inr ⟨q, hq, List.length_eq_zero.1 (by omega),
        List.length_eq_zero.1 (by omega), rfl, rfl, rfl, rfl⟩
    · injection h with h
      injection h with hA hB
      subst hA
      exact Or.inl rfl

theorem tryDrop_I12 {s : State} {pid : PeerId} {s' : State} {evs : List Event} {b : Bool}
    (h : tryDropPeer s pid = some (s', evs, b)) (h1 : I1 s) (h2 : I2 s) :
    I1 s' ∧ I2 s' := by
  rcases tryDrop_cases h with rfl | ⟨q, hq, hqs, hqr, hpe, hpb, hsh2, hrs2⟩
  · exact ⟨h1, h2⟩
  · constructor
    · constructor
      · intro e he n hn
        rw [hpe] at he
        exact mirrorsShare_of_eq hsh2 (h1.1 e (mem_aerase_iff.1 he).1 n hn)
      · intro e he pid' hpid
        rw [hsh2] at he
        have hu := h1.2 e he pid' hpid
        by_cases hk : pid' = pid
        · subst hk
          obtain ⟨w, hw, hx⟩ := hu
          rw [hq] at hw
          injection hw with hw
          subst hw
          rw [hqs] at hx
          cases hx
        · exact usesShare_erase hpe hk hu
    · constructor
      · intro e he fn hfn
        rw [hpe] at he
        exact ownsRemote_of_eq hrs2 (h2.1 e (mem_aerase_iff.1 he).1 fn hfn)
      · intro e he
        rw [hrs2] at he
        have hu := h2.2 e he
        by_cases hk : e.2.owner = pid
        · rw [hk] at hu
          obtain ⟨w, hw, hx⟩ := hu
          rw [hq] at hw
          injection hw with hw
          subst hw
          rw [hqr] at hx
          cases hx
        · exact usesRemote_erase hpe hk hu

theorem connect_edge_I12 {s : State} {pid : PeerId} {peer : Peer} {n : CommonShareName}
    {share : Share} {t : State}
    (hndp : (keys s.peers).Nodup) (hnds : (keys s.shares).Nodup)
    (hp : alookup s.peers pid = some peer) (hsh : alookup s.shares n = some share)
    (ht : t.peers = ainsert s.peers pid { peer with used_shares := sinsert peer.used_shares n })
    (hts : t.shares = ainsert s.shares n
      { share with participants := sinsert share.participants pid })
    (htr : t.remote_shares = s.remote_shares)
    (h1 : I1 s) (h2 : I2 s) : I1 t ∧ I2 t := by
  constructor
  · constructor
    · intro e he n' hn'
      rw [ht] at he
      rcases (mem_ainsert_iff hndp).1 he with rfl | ⟨hm, hne⟩
      · have hn'' : n' ∈ sinsert peer.used_shares n := hn'
        rcases mem_sinsert_iff.1 hn'' with rfl | hmem
        · refine ⟨{ share with participants := sinsert share.participants pid }, ?_, ?_⟩
          · rw [hts]
            exact alookup_ainsert_self _ _ _
          · exact mem_sinsert_iff.2 (Or.inl rfl)
        · exact mirrorsShare_update hsh hts (h1.1 (pid, peer) (alookup_mem hp) n' hmem)
            (fun _ hmm => mem_sinsert_iff.2 (Or.inr hmm))
      · exact mirrorsShare_update hsh hts (h1.1 e hm n' hn')
          (fun _ hmm => mem_sinsert_iff.2 (Or.inr hmm))
    · intro e he pid' hpid
      rw [hts] at he
      rcases (mem_ainsert_iff hnds).1 he with rfl | ⟨hm, hne⟩
      · have hpid' : pid' ∈ sinsert share.participants pid := hpid
        rcases mem_sinsert_iff.1 hpid' with rfl | hmem
        · refine ⟨{ peer with used_shares := sinsert peer.used_shares n }, ?_, ?_⟩
          · rw [ht]
            exact alookup_ainsert_self _ _ _
          · exact mem_sinsert_iff.2 (Or.inl rfl)
        · exact usesShare_update hp ht (h1.2 (n, share) (alookup_mem hsh) pid' hmem)
            (fun _ hmm => mem_sinsert_iff.2 (Or.inr hmm))
      · exact usesShare_update hp ht (h1.2 e hm pid' hpid)
          (fun _ hmm => mem_sinsert_iff.2 (Or.inr hmm))
  · constructor
    · intro e he fn hfn
      rw [ht] at he
      rcases (mem_ainsert_iff hndp).1 he with rfl | ⟨hm, hne⟩
      · have hfn' : fn ∈ peer.used_remote_shares := hfn
        exact ownsRemote_of_eq htr (h2.1 (pid, peer) (alookup_mem hp) fn hfn')
      · exact ownsRemote_of_eq htr (h2.1 e hm fn hfn)
    · intro e he
      rw [htr] at he
      exact usesRemote_update hp ht (h2.2 e he) (fun _ hmm => hmm)

theorem connectNew_edge_I12 {s : State} {pid : PeerId} {peer : Peer} {n : CommonShareName}
    {share : Share} {t : State}
    (hndp : (keys s.peers).Nodup) (hnds : (keys s.shares).Nodup)
    (hfresh : alookup s.peers pid = none)
    (hsh : alookup s.shares n = some share)
    (hes : peer.used_shares = []) (her : peer.used_remote_shares = [])
    (ht : t.peers = ainsert s.peers pid { peer with used_shares := sinsert peer.used_shares n })
    (hts : t.shares = ainsert s.shares n
      { share with participants := sinsert share.participants pid })
    (htr : t.remote_shares = s.remote_shares)
    (h1 : I1 s) (h2 : I2 s) : I1 t ∧ I2 t := by
  constructor
  · constructor
    · intro e he n' hn'
      rw [ht] at he
      rcases (mem_ainsert_iff hndp).1 he with rfl | ⟨hm, hne⟩
      · have hn'' : n' ∈ sinsert peer.used_shares n := hn'
        rw [hes] at hn''
        rcases mem_sinsert_iff.1 hn'' with rfl | hmem
        · refine ⟨{ share with participants := sinsert share.participants pid }, ?_, ?_⟩
          · rw [hts]
            exact alookup_ainsert_self _ _ _
          · exact mem_sinsert_iff.2 (Or.inl rfl)
        · cases hmem
      · exact mirrorsShare_update hsh hts (h1.1 e hm n' hn')
          (fun _ hmm => mem_sinsert_iff.2 (Or.inr hmm))
    · intro e he pid' hpid
      rw [hts] at he
      rcases (mem_ainsert_iff hnds).1 he with rfl | ⟨hm, hne⟩
      · have hpid' : pid' ∈ sinsert share.participants pid := hpid
        rcases mem_sinsert_iff.1 hpid' with rfl | hmem
        · refine ⟨{ peer with used_shares := sinsert peer.used_shares n }, ?_, ?_⟩
          · rw [ht]
            exact alookup_ainsert_self _ _ _
          · exact mem_sinsert_iff.2 (Or.inl rfl)
        · exact usesShare_insert_fresh hfresh ht (h1.2 (n, share) (alookup_mem hsh) pid' hmem)
      · exact usesShare_insert_fresh hfresh ht (h1.2 e hm pid' hpid)
  · constructor
    · intro e he fn hfn
      rw [ht] at he
      rcases (mem_ainsert_iff hndp).1 he with rfl | ⟨hm, hne⟩
      · have hfn' : fn ∈ peer.used_remote_shares := hfn
        rw [her] at hfn'
        cases hfn'
      · exact ownsRemote_of_eq htr (h2.1 e hm fn hfn)
    · intro e he
      rw [htr] at he
      exact usesRemote_insert_fresh hfresh ht (h2.2 e he)

theorem disconnect_edge_I12 {s : State} {pid : PeerId} {peer : Peer} {n : CommonShareName}
    {share : Share} {t : State}
    (hndp : (keys s.peers).Nodup) (hnds : (keys s.shares).Nodup)
    (hp : alookup s.peers pid = some peer) (hsh : alookup s.shares n = some share)
    (ht : t.peers = ainsert s.peers pid { peer with used_shares := sremove peer.used_shares n })
    (hts : t.shares = ainsert s.shares n
      { share with participants := sremove share.participants pid })
    (htr : t.remote_shares = s.remote_shares)
    (h1 : I1 s) (h2 : I2 s) : I1 t ∧ I2 t := by
  constructor
  · constructor
    · intro e he n' hn'
      rw [ht] at he
      rcases (mem_ainsert_iff hndp).1 he with rfl | ⟨hm, hne⟩
      · have hn'' : n' ∈ sremove peer.used_shares n := hn'
        obtain ⟨hmem, hne'⟩ := mem_sremove_iff.1 hn''
        exact mirrorsShare_update hsh hts (h1.1 (pid, peer) (alookup_mem hp) n' hmem)
          (fun hc _ => absurd hc hne')
      · exact mirrorsShare_update hsh hts (h1.1 e hm n' hn')
          (fun _ hmm => mem_sremove_iff.2 ⟨hmm, hne⟩)
    · intro e he pid' hpid
      rw [hts] at he
      rcases (mem_ainsert_iff hnds).1 he with rfl | ⟨hm, hne⟩
      · have hpid' : pid' ∈ sremove share.participants pid := hpid
        obtain ⟨hmem, hnep⟩ := mem_sremove_iff.1 hpid'
        exact usesShare_update hp ht (h1.2 (n, share) (alookup_mem hsh) pid' hmem)
          (fun hc _ => absurd hc hnep)
      · exact usesShare_update hp ht (h1.2 e hm pid' hpid)
          (fun _ hmm => mem_sremove_iff.2 ⟨hmm, hne⟩)
  · constructor
    · intro e he fn hfn
      rw [ht] at he
      rcases (mem_ainsert_iff hndp).1 he with rfl | ⟨hm, hne⟩
      · have hfn' : fn ∈ peer.used_remote_shares := hfn
        exact ownsRemote_of_eq htr (h2.1 (pid, peer) (alookup_mem hp) fn hfn')
      · exact ownsRemote_of_eq htr (h2.1 e hm fn hfn)
    · intro e he
      rw [htr] at he
      exact usesRemote_update hp ht (h2.2 e he) (fun _ hmm => hmm)

theorem joinRemote_I12 {s : State} {pid : PeerId} {peer : Peer} {fn : FullShareName}
    {rs : RemoteShare} {t : State}
    (hndp : (keys s.peers).Nodup) (hndr : (keys s.remote_shares).Nodup)
    (hp : alookup s.peers pid = some peer)
    (hnone : alookup s.remote_shares fn = none)
    (hor : rs.owner = pid)
    (ht : t.peers = ainsert s.peers pid
      { peer with used_remote_shares := sinsert peer.used_remote_shares fn })
    (hts : t.shares = s.shares)
    (htr : t.remote_shares = ainsert s.remote_shares fn rs)
    (h1 : I1 s) (h2 : I2 s) : I1 t ∧ I2 t := by
  constructor
  · constructor
    · intro e he n' hn'
      rw [ht] at he
      rcases (mem_ainsert_iff hndp).1 he with rfl | ⟨hm, hne⟩
      · have hn'' : n' ∈ peer.used_shares := hn'
        exact mirrorsShare_of_eq hts (h1.1 (pid, peer) (alookup_mem hp) n' hn'')
      · exact mirrorsShare_of_eq hts (h1.1 e hm n' hn')
    · intro e he pid' hpid
      rw [hts] at he
      exact usesShare_update hp ht (h1.2 e he pid' hpid) (fun _ hmm => hmm)
  · constructor
    · intro e he fn' hfn'
      rw [ht] at he
      rcases (mem_ainsert_iff hndp).1 he with rfl | ⟨hm, hne⟩
      · have hfn'' : fn' ∈ sinsert peer.used_remote_shares fn := hfn'
        rcases mem_sinsert_iff.1 hfn'' with rfl | hmem
        · refine ⟨rs, ?_, hor⟩
          rw [htr]
          exact alookup_ainsert_self _ _ _
        · exact ownsRemote_insert_fresh hnone htr
            (h2.1 (pid, peer) (alookup_mem hp) fn' hmem)
      · exact ownsRemote_insert_fresh hnone htr (h2.1 e hm fn' hfn')
    · intro e he
      rw [htr] at he
      rcases (mem_ainsert_iff hndr).1 he with rfl | ⟨hm, hne⟩
      · show usesRemote t rs.owner fn
        rw [hor]
        refine ⟨{ peer with used_remote_shares := sinsert peer.used_remote_shares fn }, ?_, ?_⟩
        · rw [ht]
          exact alookup_ainsert_self _ _ _
        · exact mem_sinsert_iff.2 (Or.inl rfl)
      · exact usesRemote_update hp ht (h2.2 e hm)
          (fun _ hmm => mem_sinsert_iff.2 (Or.inr hmm))

theorem joinRemoteNew_I12 {s : State} {pid : PeerId} {peer : Peer} {fn : FullShareName}
    {rs : RemoteShare} {t : State}
    (hndp : (keys s.peers).Nodup) (hndr : (keys s.remote_shares).Nodup)
    (hfresh : alookup s.peers pid = none)
    (hnone : alookup s.remote_shares fn = none)
    (hes : peer.used_shares = []) (her : peer.used_remote_shares = [])
    (hor : rs.owner = pid)
    (ht : t.peers = ainsert s.peers pid
      { peer with used_remote_shares := sinsert peer.used_remote_shares fn })
    (hts : t.shares = s.shares)
    (htr : t.remote_shares = ainsert s.remote_shares fn rs)
    (h1 : I1 s) (h2 : I2 s) : I1 t ∧ I2 t := by
  constructor
  · constructor
    · intro e he n' hn'
      rw [ht] at he
      rcases (mem_ainsert_iff hndp).1 he with rfl | ⟨hm, hne⟩
      · have hn'' : n' ∈ peer.used_shares := hn'
        rw [hes] at hn''
        cases hn''
      · exact mirrorsShare_of_eq hts (h1.1 e hm n' hn')
    · intro e he pid' hpid
      rw [hts] at he
      exact usesShare_insert_fresh hfresh ht (h1.2 e he pid' hpid)
  · constructor
    · intro e he fn' hfn'
      rw [ht] at he
      rcases (mem_ainsert_iff hndp).1 he with rfl | ⟨hm, hne⟩
      · have hfn'' : fn' ∈ sinsert peer.used_remote_shares fn := hfn'
        rw [her] at hfn''
        rcases mem_sinsert_iff.1 hfn'' with rfl | hmem
        · refine ⟨rs, ?_, hor⟩
          rw [htr]
          exact alookup_ainsert_self _ _ _
        · cases hmem
      · exact ownsRemote_insert_fresh hnone htr (h2.1 e hm fn' hfn')
    · intro e he
      rw [htr] at he
      rcases (mem_ainsert_iff hndr).1 he with rfl | ⟨hm, hne⟩
      · show usesRemote t rs.owner fn
        rw [hor]
        refine ⟨{ peer with used_remote_shares := sinsert peer.used_remote_shares fn }, ?_, ?_⟩
        · rw [ht]
          exact alookup_ainsert_self _ _ _
        · exact mem_sinsert_iff.2 (Or.inl rfl)
      · exact usesRemote_insert_fresh hfresh ht (h2.2 e hm)

theorem addShare_I12 {s : State} {share : Share} {t : State}
    (hnds : (keys s.shares).Nodup)
    (hnone : alookup s.shares share.name = none)
    (hpart : share.participants = [])
    (ht : t.peers = s.peers)
    (hts : t.shares = ainsert s.shares share.name share)
    (htr : t.remote_shares = s.remote_shares)
    (h1 : I1 s) (h2 : I2 s) : I1 t ∧ I2 t := by
  constructor
  · constructor
    · intro e he n' hn'
      rw [ht] at he
      exact mirrorsShare_insert_fresh hnone hts (h1.1 e he n' hn')
    · intro e he pid' hpid
      rw [hts] at he
      rcases (mem_ainsert_iff hnds).1 he with rfl | ⟨hm, hne⟩
      · have hpid' : pid' ∈ share.participants := hpid
        rw [hpart] at hpid'
        cases hpid'
      · exact usesShare_of_eq ht (h1.2 e hm pid' hpid)
  · constructor
    · intro e he fn hfn
      rw [ht] at he
      exact ownsRemote_of_eq htr (h2.1 e he fn hfn)
    · intro e he
      rw [htr] at he
      exact usesRemote_of_eq ht (h2.2 e he)

theorem exitRemote_I12 {s : State} {pid : PeerId} {peer : Peer} {fn : FullShareName}
    {t : State}
    (hndp : (keys s.peers).Nodup)
    (hp : alookup s.peers pid = some peer)
    (hmem : fn ∈ peer.used_remote_shares)
    (ht : t.peers = ainsert s.peers pid
      { peer with used_remote_shares := sremove peer.used_remote_shares fn })
    (hts : t.shares = s.shares)
    (htr : t.remote_shares = aerase s.remote_shares fn)
    (h1 : I1 s) (h2 : I2 s) : I1 t ∧ I2 t := by
  constructor
  · constructor
    · intro e he n' hn'
      rw [ht] at he
      rcases (mem_ainsert_iff hndp).1 he with rfl | ⟨hm, hne⟩
      · have hn'' : n' ∈ peer.used_shares := hn'
        exact mirrorsShare_of_eq hts (h1.1 (pid, peer) (alookup_mem hp) n' hn'')
      · exact mirrorsShare_of_eq hts (h1.1 e hm n' hn')
    · intro e he pid' hpid
      rw [hts] at he
      exact usesShare_update hp ht (h1.2 e he pid' hpid) (fun _ hmm => hmm)
  · constructor
    · intro e he fn' hfn'
      rw [ht] at he
      rcases (mem_ainsert_iff hndp).1 he with rfl | ⟨hm, hne⟩
      · have hfn'' : fn' ∈ sremove peer.used_remote_shares fn := hfn'
        obtain ⟨hm', hne'⟩ := mem_sremove_iff.1 hfn''
        exact ownsRemote_erase htr hne' (h2.1 (pid, peer) (alookup_mem hp) fn' hm')
      · have ho1 := h2.1 e hm fn' hfn'
        by_cases hffn : fn' = fn
        · subst hffn
          have ho2 := h2.1 (pid, peer) (alookup_mem hp) fn' hmem
          obtain ⟨w1, hw1, hx1⟩ := ho1
          obtain ⟨w2, hw2, hx2⟩ := ho2
          rw [hw1] at hw2
          injection hw2 with hw2
          subst hw2
          rw [hx1] at hx2
          exact absurd hx2 hne
        · exact ownsRemote_erase htr hffn ho1
    · intro e he
      rw [htr] at he
      obtain ⟨hm, hne⟩ := mem_aerase_iff.1 he
      exact usesRemote_update hp ht (h2.2 e hm)
        (fun _ hmm => mem_sremove_iff.2 ⟨hmm, hne⟩)

theorem removeShareLoop_I12 {name : CommonShareName} :
    ∀ {l : List PeerId} {u : State} {evs0 : List Event} {u' : State} {evs1 : List Event},
      removeShareLoop name l u evs0 = some (u', evs1) →
      (keys u.peers).Nodup →
      alookup u.shares name = none →
      (∀ e ∈ u.peers, ∀ n' ∈ e.2.used_shares, n' = name → e.1 ∈ l) →
      (∀ e ∈ u.peers, ∀ n' ∈ e.2.used_shares, n' ≠ name → mirrorsShare u e.1 n') →
      (∀ e ∈ u.shares, ∀ pid' ∈ e.2.participants, usesShare u pid' e.1) →
      (∀ e ∈ u.peers, ∀ fn ∈ e.2.used_remote_shares, ownsRemote u e.1 fn) →
      (∀ e ∈ u.remote_shares, usesRemote u e.2.owner e.1) →
      I1 u' ∧ I2 u' := by
  intro l
  induction l with
  | nil =>
    intro u evs0 u' evs1 h hnd hb hc hd he hf hg
    unfold removeShareLoop at h
    injection h with h
    injection h with h1 h2
    subst h1
    refine ⟨⟨?_, he⟩, hf, hg⟩
    intro e hee n' hn'
    by_cases hnn : n' = name
    · exact absurd (hc e hee n' hn' hnn) (List.not_mem_nil _)
    · exact hd e hee n' hn' hnn
  | cons pid rest ih =>
    intro u evs0 u' evs1 h hnd hb hc hd he hf hg
    unfold removeShareLoop at h
    split at h
    · exact Option.noConfusion h
    · next p hp =>
      split at h
      · split at h
        · simp only [] at h
          split at h
          · exact Option.noConfusion h
          · next u2 evs2 b heq =>
            have hnd1 : (keys (ainsert u.peers pid
                { p with used_shares := sremove p.used_shares name })).Nodup :=
              keys_nodup_ainsert _ _ hnd
            have hc1 : ∀ e ∈ ainsert u.peers pid
                { p with used_shares := sremove p.used_shares name },
                ∀ n' ∈ e.2.used_shares, n' = name → e.1 ∈ rest := by
              intro e hee n' hn' hnn
              rcases (mem_ainsert_iff hnd).1 hee with rfl | ⟨hm, hne⟩
              · rw [hnn] at hn'
                have hn'' : name ∈ sremove p.used_shares name := hn'
                exact absurd rfl (mem_sremove_iff.1 hn'').2
              · have hmem2 := hc e hm n' hn' hnn
                rcases List.mem_cons.1 hmem2 with h1 | h1
                · exact absurd h1 hne
                · exact h1
            have hd1 : ∀ e ∈ ainsert u.peers pid
                { p with used_shares := sremove p.used_shares name },
                ∀ n' ∈ e.2.used_shares, n' ≠ name → mirrorsShare u e.1 n' := by
              intro e hee n' hn' hnn
              rcases (mem_ainsert_iff hnd).1 hee with rfl | ⟨hm, hne⟩
              · have hn'' : n' ∈ sremove p.used_shares name := hn'
                exact hd (pid, p) (alookup_mem hp) n' (mem_sremove_iff.1 hn'').1 hnn
              · exact hd e hm n' hn' hnn
            have he1 : ∀ e ∈ u.shares, ∀ pid' ∈ e.2.participants,
                usesShare (State.mk u.next_peer_id (ainsert u.peers pid
                  { p with used_shares := sremove p.used_shares name })
                  u.peers_by_socket u.shares u.remote_shares) pid' e.1 := by
              intro e hee pid' hpid
              have hne_name : e.1 ≠ name := by
                intro hcn
                have hkey : e.1 ∈ keys u.shares := List.mem_map.2 ⟨e, hee, rfl⟩
                have hsome := alookup_isSome_of_mem_keys hkey
                rw [hcn, hb] at hsome
                exact Bool.noConfusion hsome
              exact usesShare_update hp rfl (he e hee pid' hpid)
                (fun _ hmm => mem_sremove_iff.2 ⟨hmm, hne_name⟩)
            have hf1 : ∀ e ∈ ainsert u.peers pid
                { p with used_shares := sremove p.used_shares name },
                ∀ fn ∈ e.2.used_remote_shares, ownsRemote u e.1 fn := by
              intro e hee fn hfn
              rcases (mem_ainsert_iff hnd).1 hee with rfl | ⟨hm, hne⟩
              · have hfn' : fn ∈ p.used_remote_shares := hfn
                exact hf (pid, p) (alookup_mem hp) fn hfn'
              · exact hf e hm fn hfn
            have hg1 : ∀ e ∈ u.remote_shares,
                usesRemote (State.mk u.next_peer_id (ainsert u.peers pid
                  { p with used_shares := sremove p.used_shares name })
                  u.peers_by_socket u.shares u.remote_shares) e.2.owner e.1 := by
              intro e hee
              exact usesRemote_update hp
                (show (State.mk u.next_peer_id (ainsert u.peers pid
                    { p with used_shares := sremove p.used_shares name })
                  u.peers_by_socket u.shares u.remote_shares).peers = ainsert u.peers pid
                    { p with used_shares := sremove p.used_shares name } from rfl)
                (hg e hee) (fun _ hmm => hmm)
            rcases tryDrop_cases heq with hsame | ⟨q, hq, hqs, hqr, hpe, hpb, hsh2, hrs2⟩
            · subst hsame
              exact ih h hnd1 hb hc1 hd1 he1 hf1 hg1
            · have hq' : alookup (ainsert u.peers pid
                  { p with used_shares := sremove p.used_shares name }) pid = some q := hq
              have hnd2 : (keys u2.peers).Nodup := by
                rw [hpe]
                exact keys_nodup_aerase _ hnd1
              have hb2 : alookup u2.shares name = none := by
                rw [hsh2]
                exact hb
              have hc2 : ∀ e ∈ u2.peers, ∀ n' ∈ e.2.used_shares, n' = name → e.1 ∈ rest := by
                intro e hee n' hn' hnn
                rw [hpe] at hee
                exact hc1 e (mem_aerase_iff.1 hee).1 n' hn' hnn
              have hd2 : ∀ e ∈ u2.peers, ∀ n' ∈ e.2.used_shares, n' ≠ name →
                  mirrorsShare u2 e.1 n' := by
                intro e hee n' hn' hnn
                rw [hpe] at hee
                exact mirrorsShare_of_eq hsh2 (hd1 e (mem_aerase_iff.1 hee).1 n' hn' hnn)
              have he2 : ∀ e ∈ u2.shares, ∀ pid' ∈ e.2.participants,
                  usesShare u2 pid' e.1 := by
                intro e hee pid' hpid
                rw [hsh2] at hee
                have hu := he1 e hee pid' hpid
                by_cases hk : pid' = pid
                · subst hk
                  obtain ⟨w, hw, hx⟩ := hu
                  have hqw : some q = some w := hq'.symm.trans hw
                  injection hqw with hqw
                  subst hqw
                  rw [hqs] at hx
                  cases hx
                · exact usesShare_erase hpe hk hu
              have hf2 : ∀ e ∈ u2.peers, ∀ fn ∈ e.2.used_remote_shares,
                  ownsRemote u2 e.1 fn := by
                intro e hee fn hfn
                rw [hpe] at hee
                exact ownsRemote_of_eq hrs2 (hf1 e (mem_aerase_iff.1 hee).1 fn hfn)
              have hg2 : ∀ e ∈ u2.remote_shares, usesRemote u2 e.2.owner e.1 := by
                intro e hee
                rw [hrs2] at hee
                have hu := hg1 e hee
                by_cases hk : e.2.owner = pid
                · rw [hk] at hu
                  obtain ⟨w, hw, hx⟩ := hu
                  have hqw : some q = some w := hq'.symm.trans hw
                  injection hqw with hqw
                  subst hqw
                  rw [hqr] at hx
                  cases hx
                · exact usesRemote_erase hpe hk hu
              exact ih h hnd2 hb2 hc2 hd2 he2 hf2 hg2
        · exact Option.noConfusion h
      · exact Option.noConfusion h

/-- C1: confirmed.  Every operation that returns a state (Ok or typed error)
preserves the bidirectional membership invariants I1 and I2, starting from a
well-formed state satisfying them, under the documented constructor
preconditions: a Peer handed to new_peer_connected_to_share or
join_remote_share_new carries empty membership sets (Peer::new is the only
public constructor) and a Share handed to add_share carries an empty
participant set (Share::new likewise). -/
theorem c1_i12_preserved :
    (∀ (s : State) (peer : Peer) (n : CommonShareName) (s' : State), Wf s → I1 s → I2 s →
      peer.used_shares = [] ∧ peer.used_remote_shares = [] →
      (newPeerConnectedToShare s peer n).stateOf? = some s' → I1 s' ∧ I2 s') ∧
    (∀ (s : State) (pid : PeerId) (n : CommonShareName) (s' : State), Wf s → I1 s → I2 s →
      (peerConnectedToShare s pid n).stateOf? = some s' → I1 s' ∧ I2 s') ∧
    (∀ (s : State) (pid : PeerId) (n : CommonShareName) (s' : State), Wf s → I1 s → I2 s →
      (peerDisconnectedFromShare s pid n).stateOf? = some s' → I1 s' ∧ I2 s') ∧
    (∀ (s : State) (pid : PeerId) (n : CommonShareName) (s' : State), Wf s → I1 s → I2 s →
      (kickPeerFromShare s pid n).stateOf? = some s' → I1 s' ∧ I2 s') ∧
    (∀ (s : State) (share : Share) (s' : State), Wf s → I1 s → I2 s →
      share.participants = [] →
      (addShare s share).stateOf? = some s' → I1 s' ∧ I2 s') ∧
    (∀ (s : State) (n : CommonShareName) (s' : State), Wf s → I1 s → I2 s →
      (removeShare s n).stateOf? = some s' → I1 s' ∧ I2 s') ∧
    (∀ (s : State) (peer : Peer) (fn : FullShareName) (mp : List Nat) (s' : State),
      Wf s → I1 s → I2 s → peer.used_shares = [] ∧ peer.used_remote_shares = [] →
      (joinRemoteShareNew s peer fn mp).stateOf? = some s' → I1 s' ∧ I2 s') ∧
    (∀ (s : State) (pid : PeerId) (fn : FullShareName) (mp : List Nat) (s' : State),
      Wf s → I1 s → I2 s →
      (joinRemoteShare s pid fn mp).stateOf? = some s' → I1 s' ∧ I2 s') ∧
    (∀ (s : State) (pid : PeerId) (fn : FullShareName) (s' : State), Wf s → I1 s → I2 s →
      (exitRemoteShare s pid fn).stateOf? = some s' → I1 s' ∧ I2 s') := by
  refine ⟨?_, ?_, ?_, ?_, ?_, ?_, ?_, ?_, ?_⟩
  · intro s peer n s' hw h1 h2 hemp h
    unfold newPeerConnectedToShare at h
    split at h
    · exact Option.some.inj h ▸ ⟨h1, h2⟩
    · split at h
      · exact Option.some.inj h ▸ ⟨h1, h2⟩
      · next share hsh =>
        split at h
        · exact Option.noConfusion h
        · next peer_id next' hnid =>
          simp only [] at h
          have hs := Option.some.inj h
          subst hs
          exact connectNew_edge_I12 hw.1 hw.2.2.1 (newPeerId_spec hnid) hsh
            hemp.1 hemp.2 rfl rfl rfl h1 h2
  · intro s pid n s' hw h1 h2 h
    unfold peerConnectedToShare at h
    split at h
    · exact Option.some.inj h ▸ ⟨h1, h2⟩
    · next share hsh =>
      split at h
      · exact Option.noConfusion h
      · next peer hp =>
        have hs := Option.some.inj h
        subst hs
        exact connect_edge_I12 hw.1 hw.2.2.1 hp hsh rfl rfl rfl h1 h2
  · intro s pid n s' hw h1 h2 h
    unfold peerDisconnectedFromShare at h
    split at h
    · exact Option.noConfusion h
    · next peer hp =>
      split at h
      · exact Option.some.inj h ▸ ⟨h1, h2⟩
      · next share hsh =>
        split at h
        · simp only [] at h
          split at h
          · exact Option.noConfusion h
          · next s2 evs b heq =>
            have hs := Option.some.inj h
            subst hs
            have hmid : I1 (State.mk s.next_peer_id
                (ainsert s.peers pid { peer with used_shares := sremove peer.used_shares n })
                s.peers_by_socket
                (ainsert s.shares n
                  { share with participants := sremove share.participants pid })
                s.remote_shares) ∧ I2 (State.mk s.next_peer_id
                (ainsert s.peers pid { peer with used_shares := sremove peer.used_shares n })
                s.peers_by_socket
                (ainsert s.shares n
                  { share with participants := sremove share.participants pid })
                s.remote_shares) :=
              disconnect_edge_I12 hw.1 hw.2.2.1 hp hsh rfl rfl rfl h1 h2
            exact tryDrop_I12 heq hmid.1 hmid.2
        · exact Option.some.inj h ▸ ⟨h1, h2⟩
  · intro s pid n s' hw h1 h2 h
    unfold kickPeerFromShare at h
    split at h
    · exact Option.noConfusion h
    · next peer hp =>
      split at h
      · exact Option.some.inj h ▸ ⟨h1, h2⟩
      · next share hsh =>
        split at h
        · split at h
          · simp only [] at h
            split at h
            · exact Option.noConfusion h
            · next s2 evs b heq =>
              have hs := Option.some.inj h
              subst hs
              have hmid : I1 (State.mk s.next_peer_id
                  (ainsert s.peers pid
                    { peer with used_shares := sremove peer.used_shares n })
                  s.peers_by_socket
                  (ainsert s.shares n
                    { share with participants := sremove share.participants pid })
                  s.remote_shares) ∧ I2 (State.mk s.next_peer_id
                  (ainsert s.peers pid
                    { peer with used_shares := sremove peer.used_shares n })
                  s.peers_by_socket
                  (ainsert s.shares n
                    { share with participants := sremove share.participants pid })
                  s.remote_shares) :=
                disconnect_edge_I12 hw.1 hw.2.2.1 hp hsh rfl rfl rfl h1 h2
              exact tryDrop_I12 heq hmid.1 hmid.2
          · exact Option.noConfusion h
        · exact Option.some.inj h ▸ ⟨h1, h2⟩
  · intro s share s' hw h1 h2 hpart h
    unfold addShare at h
    split at h
    · exact Option.some.inj h ▸ ⟨h1, h2⟩
    · next hnone =>
      have hs := Option.some.inj h
      subst hs
      exact addShare_I12 hw.2.2.1 hnone hpart rfl rfl rfl h1 h2
  · intro s n s' hw h1 h2 h
    unfold removeShare at h
    split at h
    · exact Option.some.inj h ▸ ⟨h1, h2⟩
    · next share hsh =>
      simp only [] at h
      split at h
      · exact Option.noConfusion h
      · next s1 evs hloop =>
        have hs := Option.some.inj h
        subst hs
        refine removeShareLoop_I12 hloop hw.1 ?_ ?_ ?_ ?_ ?_ ?_
        · exact alookup_aerase_self _ _
        · intro e hee n' hn' hnn
          have hmir := h1.1 e hee n' hn'
          rw [hnn] at hmir
          obtain ⟨w, hw2, hx⟩ := hmir
          rw [hsh] at hw2
          injection hw2 with hw2
          subst hw2
          exact hx
        · intro e hee n' hn' hnn
          have hmir := h1.1 e hee n' hn'
          obtain ⟨w, hw2, hx⟩ := hmir
          refine ⟨w, ?_, hx⟩
          show alookup (aerase s.shares n) n' = some w
          rw [alookup_aerase_ne _ hnn]
          exact hw2
        · intro e hee pid' hpid
          have hee' : e ∈ aerase s.shares n := hee
          exact usesShare_of_eq rfl (h1.2 e (mem_aerase_iff.1 hee').1 pid' hpid)
        · intro e hee fn hfn
          exact ownsRemote_of_eq rfl (h2.1 e hee fn hfn)
        · intro e hee
          exact usesRemote_of_eq rfl (h2.2 e hee)
  · intro s peer fn mp s' hw h1 h2 hemp h
    unfold joinRemoteShareNew at h
    split at h
    · exact Option.some.inj h ▸ ⟨h1, h2⟩
    · next hnone =>
      split at h
      · exact Option.noConfusion h
      · next peer_id next' hnid =>
        simp only [] at h
        have hs := Option.some.inj h
        subst hs
        exact joinRemoteNew_I12 hw.1 hw.2.2.2.1 (newPeerId_spec hnid) hnone
          hemp.1 hemp.2 rfl rfl rfl rfl h1 h2
  · intro s pid fn mp s' hw h1 h2 h
    unfold joinRemoteShare at h
    split at h
    · exact Option.some.inj h ▸ ⟨h1, h2⟩
    · next hnone =>
      split at h
      · exact Option.noConfusion h
      · next peer hp =>
        simp only [] at h
        have hs := Option.some.inj h
        subst hs
        exact joinRemote_I12 hw.1 hw.2.2.2.1 hp hnone rfl rfl rfl rfl h1 h2
  · intro s pid fn s' hw h1 h2 h
    unfold exitRemoteShare at h
    split at h
    · exact Option.noConfusion h
    · next peer hp =>
      split at h
      · next hmem =>
        simp only [] at h
        split at h
        · exact Option.noConfusion h
        · split at h
          · exact Option.noConfusion h
          · next s3 evs b heq =>
            have hs := Option.some.inj h
            subst hs
            have hmid : I1 (State.mk s.next_peer_id
                (ainsert s.peers pid
                  { peer with used_remote_shares := sremove peer.used_remote_shares fn })
                s.peers_by_socket s.shares
                (aerase s.remote_shares fn)) ∧ I2 (State.mk s.next_peer_id
                (ainsert s.peers pid
                  { peer with used_remote_shares := sremove peer.used_remote_shares fn })
                s.peers_by_socket s.shares
                (aerase s.remote_shares fn)) :=
              exitRemote_I12 hw.1 hp hmem rfl rfl rfl h1 h2
            exact tryDrop_I12 heq hmid.1 hmid.2
      · exact Option.some.inj h ▸ ⟨h1, h2⟩

/-- Witness for c1_i12_preserved: peer_connected_to_share(0, "A") on the
concrete state sP satisfies the hypotheses of its conjunct, returns sP itself
(both edge halves were already present, BTreeSet inserts are idempotent), and
I1 and I2 indeed hold in the resulting state. -/
theorem c1_i12_preserved_witness :
    Wf sP ∧ I1 sP ∧ I2 sP ∧ (peerConnectedToShare sP 0 nameA).stateOf? = some sP ∧
      (I1 sP ∧ I2 sP) :=
  ⟨by decide, by decide, by decide, by decide,
    c1_i12_preserved.2.1 sP 0 nameA sP (by decide) (by decide) (by decide) (by decide)⟩

/-- Counterexample for C2 as claimed: on the well-formed state sP (one live
peer with id 0 at addr1), join_remote_share_new with a fresh peer handle at
the already-bound address addr1 succeeds and overwrites the peers_by_socket
binding to the new id 1, leaving the still-live peer 0 without a correct
binding and two live peers sharing one address: I3 is destroyed. -/
theorem c2_rebind_breaks_i3 :
    Wf sP ∧ I3 sP ∧
      joinRemoteShareNew sP peer1b nameR [47] = .ok 1 sPjoined [] ∧
      ¬ I3 sPjoined := by decide

/-- Witness for c2_i3_preserved: joining peer2 (fresh address addr2) to the
remote share nameR on sP satisfies all the hypotheses of the
join_remote_share_new conjunct, and I3 indeed holds in the resulting state. -/
theorem c2_i3_preserved_witness :
    Wf sP ∧ I3 sP ∧ (∀ e ∈ sP.peers, e.2.address ≠ peer2.address) ∧
      (joinRemoteShareNew sP peer2 nameR [47]).stateOf? = some sPjoined2 ∧
      I3 sPjoined2 :=
  ⟨by decide, by decide, by decide, by decide,
    c2_i3_preserved.2.2.2.2.2.2.1 sP peer2 nameR [47] sPjoined2
      (by decide) (by decide) (by decide) (by decide)⟩

end Rdir
